import Mathlib

/-!
Verification of the role synchronization engine of discord-github-roles.

The definitions below are a shallow embedding of the TypeScript source:

* `src/services/role-sync.ts`   — `RoleSyncService` (`syncAllGuilds`, `syncGuild`,
  `processContributorRole`, `processStargazerRole`);
* `src/services/github-api.ts`  — `GitHubApiClient` (`request`,
  `getRepositoryContributors`, `getRepositoryStargazers`, `getNextPageUrl`);
* `src/scheduler/scheduler.ts`  — `Scheduler` (`runSync` rescheduling constants).

Conventions of the embedding:

* Database access through prisma is modelled as explicit state passing on
  `DbState` (the `RepositorySyncState` row's `lastSyncError` column together with
  the `ContributorCache` / `StargazerCache` membership rows, keyed by repository
  full name).  ETag columns and timestamps are threaded by the source but read
  by none of the verified properties; they are omitted from the state.
* Discord is modelled by `GuildState`: the guild lookup result, the bot's
  permission bit and highest role position, the guild role cache, and a member
  store mapping a Discord id to the member's role id list (`none` when the
  member fetch fails / the user is not in the guild).  A successful
  `member.roles.add` / `member.roles.remove` call is reflected immediately in
  the member's role list; the `discordOk` flag says whether these calls
  succeed (the source catches their failures and keeps the counters at 0).
* Outbound GitHub fetches are parametrised by a `FetchOutcome` per repository
  and data kind: the client call either throws, reports 304 Not Modified with
  a null body, or returns a freshly fetched (already lowercased) login list.
* HTTP responses for the retry logic of `request` are an explicit stream
  `Nat → HttpResponse` indexed by the attempt number.
-/

/-- Pointwise update of a string-keyed map, the effect of a keyed database
write (prisma update / upsert / deleteMany-then-create at one key). -/
def updateFn {α : Type} (f : String → α) (k : String) (v : α) : String → α :=
  fun k' => if k' = k then v else f k'

/-- JavaScript `Map.prototype.get` on a string-keyed map represented as its
entry list in insertion order. -/
def mapGet {α : Type} : List (String × α) → String → Option α
  | [], _ => none
  | (k', v') :: rest, k => if k' = k then some v' else mapGet rest k

/-- JavaScript `Map.prototype.set`: update the entry in place when the key is
present, append it otherwise. -/
def mapSet {α : Type} : List (String × α) → String → α → List (String × α)
  | [], k, v => [(k, v)]
  | (k', v') :: rest, k, v =>
    if k' = k then (k, v) :: rest else (k', v') :: mapSet rest k v

/-- JavaScript `String.prototype.toLowerCase` on one character, restricted to
the ASCII range that GitHub logins inhabit. -/
def jsCharToLower (c : Char) : Char :=
  if 'A' ≤ c ∧ c ≤ 'Z' then Char.ofNat (c.toNat + 32) else c

/-- JavaScript `String.prototype.toLowerCase` (ASCII model). -/
def jsToLower (s : String) : String :=
  String.mk (s.data.map jsCharToLower)

/-- Accumulator loop for `jsSplit`. -/
def jsSplitAux (sep : Char) : List Char → List Char → List (List Char)
  | [], acc => [acc.reverse]
  | c :: cs, acc =>
    if c = sep then acc.reverse :: jsSplitAux sep cs []
    else jsSplitAux sep cs (c :: acc)

/-- JavaScript `String.prototype.split` with a one-character separator (the
source only splits on a comma and on a semicolon).  The empty string splits
to a singleton list holding the empty string, like in JavaScript. -/
def jsSplit (s : String) (sep : Char) : List String :=
  (jsSplitAux sep s.data []).map String.mk

/-- The white-space characters relevant to `String.prototype.trim` in Link
headers. -/
def jsWhitespace (c : Char) : Bool :=
  c == ' ' || c == '\t' || c == '\n' || c == '\r'

/-- JavaScript `String.prototype.trim`. -/
def jsTrim (s : String) : String :=
  String.mk (((s.data.dropWhile jsWhitespace).reverse.dropWhile jsWhitespace).reverse)

/-- JavaScript `s.slice(1, -1)`: the string without its first and last
characters (empty when the length is at most one). -/
def jsSlice1Neg1 (s : String) : String :=
  String.mk ((s.data.drop 1).dropLast)

/-- Decidable equality for fallible results, so that concrete runs of the
embedded functions can be checked by evaluation. -/
instance {ε α : Type} [DecidableEq ε] [DecidableEq α] : DecidableEq (Except ε α)
  | .error e, .error e' =>
    if h : e = e' then .isTrue (by rw [h]) else .isFalse (by intro hh; cases hh; exact h rfl)
  | .error _, .ok _ => .isFalse (by intro h; cases h)
  | .ok _, .error _ => .isFalse (by intro h; cases h)
  | .ok a, .ok b =>
    if h : a = b then .isTrue (by rw [h]) else .isFalse (by intro hh; cases hh; exact h rfl)

/-- A followed repository row (`FollowedRepository` in the prisma schema). -/
structure FollowedRepository where
  owner : String
  name : String
deriving DecidableEq, Repr

/-- The template string `owner + "/" + name` used as the global key
`repositoryFullName` throughout role-sync.ts. -/
def FollowedRepository.fullName (r : FollowedRepository) : String :=
  r.owner ++ "/" ++ r.name

/-- A guild's sync configuration (`GuildConfig` with its `repositories`
relation included, as loaded by `syncAllGuilds`). -/
structure GuildConfig where
  guildId : String
  contributorRoleId : Option String
  stargazerRoleId : Option String
  repositories : List FollowedRepository
deriving DecidableEq

/-- One entry of the `repoDataMap` built by `syncGuild`: the contributor and
stargazer login lists gathered for one repository.  The source annotates the
fields as nullable but every stored value is a concrete array (`[]` is used
when a kind is not fetched), so lists suffice. -/
structure RepoData where
  contributors : List String
  stargazers : List String
deriving DecidableEq, Repr

/-- Result of one GitHub client call (`getRepositoryContributors` or
`getRepositoryStargazers`) for one repository and data kind, as observed by
`syncGuild`: the call throws, or reports 304 Not Modified (`logins = null`,
`notModified = true`), or returns the freshly fetched lowercased login list
(`notModified = false`). -/
inductive FetchOutcome where
  | throws (msg : String)
  | notModified
  | fresh (logins : List String)
deriving DecidableEq, Repr

/-- The persistent per-repository state touched by the fetch phase of
`syncGuild`: the cached membership rows (`ContributorCache`,
`StargazerCache`) and the `lastSyncError` column of `RepositorySyncState`,
all keyed by `repositoryFullName`. -/
structure DbState where
  contribCache : String → List String
  starCache : String → List String
  lastSyncError : String → Option String

/-- One data kind of the per-repository fetch step of `syncGuild`
(role-sync.ts lines 174-226 for contributors, 228-280 for stargazers).
When the matching role id is configured the client is called; on 304 the
cached rows for the repository are substituted, on fresh data the new list is
used and, when it is non-empty, the cached rows are deleted and rewritten.
Returns the list stored into `repoDataMap` together with the cache rewrite to
apply (`none` = leave the cached rows untouched); a thrown client error is
propagated.  When the role id is not configured the list stays `[]` and the
client is not called. -/
def fetchKind (configured : Bool) (out : FetchOutcome) (cache : String → List String)
    (full : String) : Except String (List String × Option (List String)) :=
  if configured then
    match out with
    | .throws m => .error m
    | .notModified => .ok (cache full, none)
    | .fresh logins => .ok (logins, if logins.isEmpty then none else some logins)
  else
    .ok ([], none)

/-- The body of the per-repository loop of `syncGuild` (role-sync.ts lines
156-317): contributors are fetched first, then stargazers; a throw from
either client call is caught by the surrounding try block, which records the
message into `lastSyncError` and yields no `repoDataMap` entry (cache writes
already performed for the earlier kind are kept, mirroring the sequential
database writes of the source).  On success `lastSyncError` is cleared and
the gathered data is returned for the map. -/
def syncRepo (cfg : GuildConfig) (repo : FollowedRepository)
    (cOut sOut : FetchOutcome) (db : DbState) : DbState × Option RepoData :=
  let full := repo.fullName
  match fetchKind cfg.contributorRoleId.isSome cOut db.contribCache full with
  | .error m => ({ db with lastSyncError := updateFn db.lastSyncError full (some m) }, none)
  | .ok (contributors, cWrite) =>
    let db1 : DbState :=
      match cWrite with
      | some l => { db with contribCache := updateFn db.contribCache full l }
      | none => db
    match fetchKind cfg.stargazerRoleId.isSome sOut db1.starCache full with
    | .error m =>
      ({ db1 with lastSyncError := updateFn db1.lastSyncError full (some m) }, none)
    | .ok (stargazers, sWrite) =>
      let db2 : DbState :=
        match sWrite with
        | some l => { db1 with starCache := updateFn db1.starCache full l }
        | none => db1
      ({ db2 with lastSyncError := updateFn db2.lastSyncError full none },
        some ⟨contributors, stargazers⟩)

/-- The fetch phase of `syncGuild`: fold `syncRepo` over the followed
repositories, threading the database state and populating `repoDataMap`
(a repository whose fetch threw contributes no entry). -/
def fetchPhase (cfg : GuildConfig) (outs : FollowedRepository → FetchOutcome × FetchOutcome) :
    List FollowedRepository → DbState → List (String × RepoData) →
    DbState × List (String × RepoData)
  | [], db, m => (db, m)
  | repo :: rest, db, m =>
    let step := syncRepo cfg repo (outs repo).1 (outs repo).2 db
    let m' := match step.2 with
      | some data => mapSet m repo.fullName data
      | none => m
    fetchPhase cfg outs rest step.1 m'

/-- A Discord role as seen through `guild.roles.cache`. -/
structure Role where
  id : String
  position : Int
deriving DecidableEq, Repr

/-- `guild.roles.cache.get(roleId)`. -/
def findRole (roles : List Role) (rid : String) : Option Role :=
  roles.find? fun r => r.id == rid

/-- A `User` row with its one-to-one `discordAccount` / `gitHubAccount`
relations included; a side that is not linked is `none`.  Only the Discord id
and the GitHub username are read by the sync. -/
structure LinkedUser where
  discordAccount : Option String
  gitHubAccount : Option String

/-- The Discord id under which `syncGuild` processes a user: present exactly
when both account sides are linked (otherwise the user loop skips the user). -/
def LinkedUser.activeDiscordId (u : LinkedUser) : Option String :=
  match u.discordAccount, u.gitHubAccount with
  | some did, some _ => some did
  | _, _ => none

/-- The contributor decision of `processContributorRole` (role-sync.ts lines
427-431): some followed repository's `repoDataMap` entry lists the normalized
username among its contributors.  A repository with no map entry contributes
nothing. -/
def isContributorFor (cfg : GuildConfig) (m : List (String × RepoData))
    (normalizedUsername : String) : Bool :=
  cfg.repositories.any fun repo =>
    match mapGet m repo.fullName with
    | some d => d.contributors.contains normalizedUsername
    | none => false

/-- The stargazer decision of `processStargazerRole` (role-sync.ts lines
497-501). -/
def isStargazerFor (cfg : GuildConfig) (m : List (String × RepoData))
    (normalizedUsername : String) : Bool :=
  cfg.repositories.any fun repo =>
    match mapGet m repo.fullName with
    | some d => d.stargazers.contains normalizedUsername
    | none => false

/-- Result of processing one role kind for one member: the `added` / `removed`
counters returned to `syncGuild`, the number of Discord grant / revoke calls
attempted, and the member's role list afterwards. -/
structure ProcOut where
  added : Nat
  removed : Nat
  calls : Nat
  roles : List String
deriving DecidableEq, Repr

/-- `RoleSyncService.processContributorRole` (role-sync.ts lines 407-472).
The GitHub username is lowercased, the any-repository membership decision is
taken, and the role is granted when desired but absent, revoked when held but
undesired, and left alone otherwise.  A missing configured role id or a role
id absent from the guild's role cache returns zero counters; a failing
Discord call (`discordOk = false`) is caught and leaves the counters at 0. -/
def processContributorRole (githubUsername : String) (cfg : GuildConfig)
    (m : List (String × RepoData)) (guildRoles : List Role)
    (memberRoles : List String) (discordOk : Bool) : ProcOut :=
  match cfg.contributorRoleId with
  | none => ⟨0, 0, 0, memberRoles⟩
  | some rid =>
    let normalizedUsername := jsToLower githubUsername
    let isContributor := isContributorFor cfg m normalizedUsername
    match findRole guildRoles rid with
    | none => ⟨0, 0, 0, memberRoles⟩
    | some contributorRole =>
      let hasRole := memberRoles.contains contributorRole.id
      if isContributor && !hasRole then
        if discordOk then ⟨1, 0, 1, contributorRole.id :: memberRoles⟩
        else ⟨0, 0, 1, memberRoles⟩
      else if !isContributor && hasRole then
        if discordOk then ⟨0, 1, 1, memberRoles.filter (fun x => x != contributorRole.id)⟩
        else ⟨0, 0, 1, memberRoles⟩
      else ⟨0, 0, 0, memberRoles⟩

/-- `RoleSyncService.processStargazerRole` (role-sync.ts lines 477-547),
identical in shape to the contributor version but driven by the stargazer
sets and the configured stargazer role id. -/
def processStargazerRole (githubUsername : String) (cfg : GuildConfig)
    (m : List (String × RepoData)) (guildRoles : List Role)
    (memberRoles : List String) (discordOk : Bool) : ProcOut :=
  match cfg.stargazerRoleId with
  | none => ⟨0, 0, 0, memberRoles⟩
  | some rid =>
    let normalizedUsername := jsToLower githubUsername
    let isStargazer := isStargazerFor cfg m normalizedUsername
    match findRole guildRoles rid with
    | none => ⟨0, 0, 0, memberRoles⟩
    | some stargazerRole =>
      let hasRole := memberRoles.contains stargazerRole.id
      if isStargazer && !hasRole then
        if discordOk then ⟨1, 0, 1, stargazerRole.id :: memberRoles⟩
        else ⟨0, 0, 1, memberRoles⟩
      else if !isStargazer && hasRole then
        if discordOk then ⟨0, 1, 1, memberRoles.filter (fun x => x != stargazerRole.id)⟩
        else ⟨0, 0, 1, memberRoles⟩
      else ⟨0, 0, 0, memberRoles⟩

/-- The member store of a guild: `guild.members.fetch` by Discord id, `none`
when the user is not a member (the fetch rejection is caught and mapped to
null by the source). -/
abbrev MemberStore := List (String × List String)

/-- Accumulated output of the user-processing phase. -/
structure UsersOut where
  store : MemberStore
  processed : Nat
  added : Nat
  removed : Nat
  calls : Nat

/-- The body of the per-user loop of `syncGuild` (role-sync.ts lines
320-364): skip users with a missing account side, skip non-members, then run
the contributor and the stargazer processing in order on the member,
accumulating counters.  The member's updated role list is written back to the
store (a successful Discord mutation is visible to the next read). -/
def processUser (cfg : GuildConfig) (m : List (String × RepoData))
    (guildRoles : List Role) (discordOk : Bool) (store : MemberStore)
    (u : LinkedUser) : UsersOut :=
  match u.discordAccount, u.gitHubAccount with
  | some did, some gh =>
    match mapGet store did with
    | none => ⟨store, 0, 0, 0, 0⟩
    | some memberRoles =>
      let r1 := if cfg.contributorRoleId.isSome then
          processContributorRole gh cfg m guildRoles memberRoles discordOk
        else ⟨0, 0, 0, memberRoles⟩
      let r2 := if cfg.stargazerRoleId.isSome then
          processStargazerRole gh cfg m guildRoles r1.roles discordOk
        else ⟨0, 0, 0, r1.roles⟩
      ⟨mapSet store did r2.roles, 1,
        r1.added + r2.added, r1.removed + r2.removed, r1.calls + r2.calls⟩
  | _, _ => ⟨store, 0, 0, 0, 0⟩

/-- The user-processing phase of `syncGuild`: fold `processUser` over the
linked users, threading the member store and summing the counters. -/
def processUsers (cfg : GuildConfig) (m : List (String × RepoData))
    (guildRoles : List Role) (discordOk : Bool) :
    List LinkedUser → MemberStore → UsersOut
  | [], store => ⟨store, 0, 0, 0, 0⟩
  | u :: rest, store =>
    let o := processUser cfg m guildRoles discordOk store u
    let os := processUsers cfg m guildRoles discordOk rest o.store
    ⟨os.store, o.processed + os.processed, o.added + os.added,
      o.removed + os.removed, o.calls + os.calls⟩

/-- The Discord-side state `syncGuild` reads for one guild. -/
structure GuildState where
  guildFound : Bool
  botHasManageRoles : Bool
  botHighestPosition : Int
  roles : List Role
  members : MemberStore

/-- The finalized `GuildSyncHistory` record of one reconciliation attempt,
extended with the number of Discord grant / revoke calls attempted (`calls`),
which the history does not store but the verified properties talk about. -/
structure SyncResult where
  success : Bool
  errorMessage : Option String
  totalProcessed : Nat
  rolesAdded : Nat
  rolesRemoved : Nat
  calls : Nat
deriving Repr

/-- Bundled output of one `syncGuild` run. -/
structure SyncOutput where
  result : SyncResult
  db : DbState
  guild : GuildState

/-- `RoleSyncService.syncGuild` (role-sync.ts lines 63-402).  The guild
lookup and the ManageRoles permission check throw into the outer catch, which
finalizes the history record as failed with the accumulated (still zero)
counters.  The role-hierarchy comparisons of lines 102-129 only emit warnings
and fall through, so they appear here as no state change; after them the
fetch phase and the user phase run and the history is finalized as
successful. -/
def syncGuild (cfg : GuildConfig) (gs : GuildState)
    (outs : FollowedRepository → FetchOutcome × FetchOutcome)
    (users : List LinkedUser) (db : DbState) (discordOk : Bool) : SyncOutput :=
  if !gs.guildFound then
    ⟨⟨false, some ("Guild not found in Discord: " ++ cfg.guildId), 0, 0, 0, 0⟩, db, gs⟩
  else if !gs.botHasManageRoles then
    ⟨⟨false, some "Bot does not have \"Manage Roles\" permission in this guild", 0, 0, 0, 0⟩,
      db, gs⟩
  else
    let fetched := fetchPhase cfg outs cfg.repositories db []
    let out := processUsers cfg fetched.2 gs.roles discordOk users gs.members
    ⟨⟨true, none, out.processed, out.added, out.removed, out.calls⟩,
      fetched.1, { gs with members := out.store }⟩

/-- The warning condition of role-sync.ts lines 103-116: a contributor role
is configured, found in the guild, and the bot's highest role position is at
or below it (the bot structurally cannot assign it).  The source only logs a
warning when this holds. -/
def contributorHierarchyBlocked (cfg : GuildConfig) (gs : GuildState) : Bool :=
  match cfg.contributorRoleId with
  | none => false
  | some rid =>
    match findRole gs.roles rid with
    | none => false
    | some role => gs.botHighestPosition ≤ role.position

/-- The warning condition of role-sync.ts lines 118-129 for the stargazer
role. -/
def stargazerHierarchyBlocked (cfg : GuildConfig) (gs : GuildState) : Bool :=
  match cfg.stargazerRoleId with
  | none => false
  | some rid =>
    match findRole gs.roles rid with
    | none => false
    | some role => gs.botHighestPosition ≤ role.position

/-- `RoleSyncService.syncAllGuilds` (role-sync.ts lines 21-58): every
configured guild is reconciled inside its own try / catch, so each guild's
outcome is recorded independently of the outcomes of the guilds before it.
The per-guild reconciliation is abstracted as a fallible action. -/
def syncAllGuilds {α β : Type} (sync : α → Except String β) :
    List α → List (α × Except String β)
  | [] => []
  | g :: rest => (g, sync g) :: syncAllGuilds sync rest

/-- `GitHubApiClient.maxRetries` (github-api.ts line 53). -/
def maxRetries : Nat := 3

/-- Classification of one HTTP attempt as seen by the control flow of
`GitHubApiClient.request` (github-api.ts lines 150-337): a 2xx body, a 304,
a 403/429 rate limit (with the header facts the handler branches on), some
other error status, or an exception thrown by `fetch` (retried only when its
name is TypeError, the network-error signature). -/
inductive HttpResponse where
  | ok (body : List String)
  | notModified
  | rateLimited (remainingZero : Bool) (retryAfter : Option Nat)
  | httpError (status : Nat)
  | networkError (isTypeError : Bool)
deriving DecidableEq, Repr

/-- `GitHubApiClient.request`, reduced to its retry control flow: the
response stream is indexed by the retry counter (each recursive call passes
`retryCount + 1`).  A 403/429 retries after the applicable wait (reset
window, Retry-After seconds, or exponential backoff — the wait itself is not
modelled) while `retryCount < maxRetries` and otherwise falls through to the
throw; a thrown TypeError retries under the same bound and any other
exception is rethrown at once.  The second component counts the fetch
attempts performed. -/
def request (resp : Nat → HttpResponse) (retryCount : Nat) :
    Except String (Option (List String)) × Nat :=
  match resp retryCount with
  | .notModified => (.ok none, 1)
  | .ok body => (.ok (some body), 1)
  | .rateLimited _ _ =>
    if _h : retryCount < maxRetries then
      ((request resp (retryCount + 1)).1, (request resp (retryCount + 1)).2 + 1)
    else (.error "GitHub API error: 403", 1)
  | .httpError status => (.error ("GitHub API error: " ++ toString status), 1)
  | .networkError isTypeError =>
    if _h : isTypeError = true ∧ retryCount < maxRetries then
      ((request resp (retryCount + 1)).1, (request resp (retryCount + 1)).2 + 1)
    else (.error "network error", 1)
termination_by maxRetries - retryCount
decreasing_by all_goals (simp_wf; omega)

/-- A response that the `request` retry logic reacts to by retrying (while
the bound allows): any 403/429, and a thrown TypeError. -/
def isRetryable : HttpResponse → Bool
  | .rateLimited _ _ => true
  | .networkError isTypeError => isTypeError
  | _ => false

/-- Loop body of `GitHubApiClient.getNextPageUrl` (github-api.ts lines
471-478) over the comma-separated segments of the Link header.  JavaScript
destructures each segment's semicolon split into `[url, rel]`; when a segment
has no semicolon, `rel` is undefined and `rel.trim()` throws a TypeError,
modelled by the error result. -/
def getNextPageUrlGo : List String → Except String (Option String)
  | [] => .ok none
  | link :: rest =>
    let parts := jsSplit link ';'
    match parts[1]? with
    | none => .error "TypeError: Cannot read properties of undefined"
    | some rel =>
      if jsTrim rel = "rel=\"next\"" then
        .ok (some (jsSlice1Neg1 (jsTrim (parts.headD ""))))
      else getNextPageUrlGo rest

/-- `GitHubApiClient.getNextPageUrl` (github-api.ts lines 467-481).  A null
header — and, through JavaScript falsiness, the empty string — yields null
without parsing. -/
def getNextPageUrl (linkHeader : Option String) : Except String (Option String) :=
  match linkHeader with
  | none => .ok none
  | some h => if h = "" then .ok none else getNextPageUrlGo (jsSplit h ',')

/-- Modelled from the spec for comparison with `getNextPageUrl`: null (none)
when no comma-separated segment's rel parameter is rel="next", otherwise the
text between the angle brackets of the first such segment. -/
def specNextPageUrl (h : String) : Option String :=
  ((jsSplit h ',').find? fun link =>
      jsTrim ((jsSplit link ';')[1]?.getD "") == "rel=\"next\"").map
    fun link => jsSlice1Neg1 (jsTrim ((jsSplit link ';').headD ""))

/-- One HTTP response page of a contributor or stargazer listing: the 2xx
flag, the logins carried by the body (in their original letter case), and the
raw Link header. -/
structure Page where
  okStatus : Bool
  logins : List String
  linkHeader : Option String

/-- The pagination while-loop of `GitHubApiClient.getRepositoryStargazers`
(github-api.ts lines 421-450): while a next URL is present, fetch the next
page (an exhausted stream models a failed fetch), throw on a non-2xx status,
stop when the page body is empty, and otherwise append the lowercased logins
and continue with the page's own next link. -/
def starPagesLoop (acc : List String) :
    Option String → List Page → Except String (List String)
  | none, _ => .ok acc
  | some _, [] => .error "network error"
  | some _, p :: rest =>
    if !p.okStatus then .error "GitHub API error"
    else if p.logins.isEmpty then .ok acc
    else
      match getNextPageUrl p.linkHeader with
      | .error e => .error e
      | .ok nxt => starPagesLoop (acc ++ p.logins.map jsToLower) nxt rest

/-- `GitHubApiClient.getRepositoryStargazers` (github-api.ts lines 384-462)
on its successful-data path (the 304 path returns null logins before any of
this runs): the first page's logins are lowercased and taken unconditionally,
then the Link header chain is followed by `starPagesLoop`. -/
def getRepositoryStargazers (pages : List Page) : Except String (List String) :=
  match pages with
  | [] => .error "network error"
  | p :: rest =>
    if !p.okStatus then .error "GitHub API error"
    else
      match getNextPageUrl p.linkHeader with
      | .error e => .error e
      | .ok nxt => starPagesLoop (p.logins.map jsToLower) nxt rest

/-- `GitHubApiClient.getRepositoryContributors` (github-api.ts lines
342-379) on its successful-data path: one `request` call for the endpoint,
whose body is mapped to lowercased logins.  No pagination loop exists in this
function — the Link header of the response is never read and any further
pages are ignored. -/
def getRepositoryContributors (pages : List Page) : Except String (List String) :=
  match pages with
  | [] => .error "network error"
  | p :: _rest =>
    if !p.okStatus then .error "GitHub API error"
    else .ok (p.logins.map jsToLower)

/-- `DEFAULT_SYNC_INTERVAL_HOURS` (scheduler.ts line 9): 0.25 hours. -/
def DEFAULT_SYNC_INTERVAL_HOURS : ℚ := 1 / 4

/-- `SYNC_ERROR_RETRY_MS` (scheduler.ts line 11): 30 minutes. -/
def SYNC_ERROR_RETRY_MS : ℚ := 1000 * 60 * 30

/-- The `syncIntervalMs` computation of the `Scheduler` constructor
(scheduler.ts lines 22-23): `(syncIntervalHours || DEFAULT) * 60 * 60 *
1000`, where JavaScript `||` also replaces a passed 0 by the default. -/
def syncIntervalMs (syncIntervalHours : Option ℚ) : ℚ :=
  (match syncIntervalHours with
   | some h => if h = 0 then DEFAULT_SYNC_INTERVAL_HOURS else h
   | none => DEFAULT_SYNC_INTERVAL_HOURS) * 60 * 60 * 1000

/-- The rescheduling decision at the end of `Scheduler.runSync`
(scheduler.ts lines 68-103): a not-ready Discord client reschedules in one
minute; a pass whose `syncAllGuilds` resolves reschedules after the full
interval; a pass whose `syncAllGuilds` rejects reschedules after
`SYNC_ERROR_RETRY_MS`. -/
def runSyncNextDelayMs (intervalMs : ℚ) (discordReady : Bool)
    (outcome : Except String Unit) : ℚ :=
  if !discordReady then 60000
  else
    match outcome with
    | .ok _ => intervalMs
    | .error _ => SYNC_ERROR_RETRY_MS

/-! ## Derived characterizations of the per-repository fetch step -/

/-- Whether a result is the thrown side of a fallible computation. -/
def isError {ε α : Type} : Except ε α → Bool
  | .error _ => true
  | .ok _ => false

/-- The contributor-cache rewrite performed by one `syncRepo` step, as a
function of the configuration and the fetch outcome alone: rows are rewritten
exactly when the contributor role is configured and the fresh fetch result is
non-empty. -/
def contribCacheWrite (cfg : GuildConfig) (cOut : FetchOutcome) : Option (List String) :=
  if cfg.contributorRoleId.isSome then
    match cOut with
    | .fresh l => if l.isEmpty then none else some l
    | _ => none
  else none

/-- The stargazer-cache rewrite performed by one `syncRepo` step.  A throw of
the contributor fetch aborts the repository's try block before the stargazer
fetch runs, so nothing is written in that case. -/
def starCacheWrite (cfg : GuildConfig) (cOut sOut : FetchOutcome) : Option (List String) :=
  match cfg.contributorRoleId.isSome, cOut with
  | true, .throws _ => none
  | _, _ =>
    if cfg.stargazerRoleId.isSome then
      match sOut with
      | .fresh l => if l.isEmpty then none else some l
      | _ => none
    else none

/-- The `lastSyncError` value written at the repository's key by one
`syncRepo` step: the thrown message on a fetch error, null on success. -/
def errWrite (cfg : GuildConfig) (cOut sOut : FetchOutcome) : Option String :=
  match cfg.contributorRoleId.isSome, cOut with
  | true, .throws m => some m
  | _, _ =>
    match cfg.stargazerRoleId.isSome, sOut with
    | true, .throws m => some m
    | _, _ => none

/-- The login list one data kind contributes to the `repoDataMap` entry, as a
function of the configuration, the outcome and the cached rows (`none` when
the fetch throws and the entry is not stored). -/
def kindData (configured : Bool) (out : FetchOutcome) (cached : List String) :
    Option (List String) :=
  if configured then
    match out with
    | .throws _ => none
    | .notModified => some cached
    | .fresh l => some l
  else some []

/-- The `repoDataMap` entry produced by one `syncRepo` step as a function of
the configuration, the outcomes, and the cached rows at the repository's
key. -/
def syncRepoData (cfg : GuildConfig) (cOut sOut : FetchOutcome)
    (cCache sCache : List String) : Option RepoData :=
  match kindData cfg.contributorRoleId.isSome cOut cCache with
  | none => none
  | some cs =>
    match kindData cfg.stargazerRoleId.isSome sOut sCache with
    | none => none
    | some ss => some ⟨cs, ss⟩

theorem syncRepo_snd (cfg : GuildConfig) (repo : FollowedRepository)
    (cOut sOut : FetchOutcome) (db : DbState) :
    (syncRepo cfg repo cOut sOut db).2 =
      syncRepoData cfg cOut sOut (db.contribCache repo.fullName)
        (db.starCache repo.fullName) := by
  cases hc : cfg.contributorRoleId.isSome <;> cases cOut <;>
    cases hs : cfg.stargazerRoleId.isSome <;> cases sOut <;>
      simp [syncRepo, fetchKind, syncRepoData, kindData, hc, hs] <;>
        split_ifs <;> simp

theorem syncRepo_contribCache (cfg : GuildConfig) (repo : FollowedRepository)
    (cOut sOut : FetchOutcome) (db : DbState) (k : String) :
    (syncRepo cfg repo cOut sOut db).1.contribCache k =
      if k = repo.fullName then (contribCacheWrite cfg cOut).getD (db.contribCache k)
      else db.contribCache k := by
  cases hc : cfg.contributorRoleId.isSome <;> cases cOut <;>
    cases hs : cfg.stargazerRoleId.isSome <;> cases sOut <;>
      simp [syncRepo, fetchKind, contribCacheWrite, updateFn, hc, hs] <;>
        split_ifs <;> simp_all [updateFn]

theorem syncRepo_starCache (cfg : GuildConfig) (repo : FollowedRepository)
    (cOut sOut : FetchOutcome) (db : DbState) (k : String) :
    (syncRepo cfg repo cOut sOut db).1.starCache k =
      if k = repo.fullName then (starCacheWrite cfg cOut sOut).getD (db.starCache k)
      else db.starCache k := by
  cases hc : cfg.contributorRoleId.isSome <;> cases cOut <;>
    cases hs : cfg.stargazerRoleId.isSome <;> cases sOut <;>
      simp [syncRepo, fetchKind, starCacheWrite, updateFn, hc, hs] <;>
        split_ifs <;> simp_all [updateFn]

theorem syncRepo_lastSyncError (cfg : GuildConfig) (repo : FollowedRepository)
    (cOut sOut : FetchOutcome) (db : DbState) (k : String) :
    (syncRepo cfg repo cOut sOut db).1.lastSyncError k =
      if k = repo.fullName then errWrite cfg cOut sOut
      else db.lastSyncError k := by
  cases hc : cfg.contributorRoleId.isSome <;> cases cOut <;>
    cases hs : cfg.stargazerRoleId.isSome <;> cases sOut <;>
      simp [syncRepo, fetchKind, errWrite, updateFn, hc, hs] <;>
        split_ifs <;> simp_all [updateFn]

theorem mapGet_mapSet {α : Type} (m : List (String × α)) (k k' : String) (v : α) :
    mapGet (mapSet m k v) k' = if k' = k then some v else mapGet m k' := by
  induction m with
  | nil => simp [mapGet, mapSet]; split_ifs <;> simp_all [mapGet]
  | cons e rest ih =>
    obtain ⟨ek, ev⟩ := e
    by_cases h1 : ek = k <;> by_cases h2 : k' = k <;>
      simp_all [mapGet, mapSet] <;> split_ifs <;> simp_all [mapGet]

theorem mapSet_self {α : Type} (m : List (String × α)) (k : String) (v : α)
    (h : mapGet m k = some v) : mapSet m k v = m := by
  induction m with
  | nil => simp [mapGet] at h
  | cons e rest ih =>
    obtain ⟨ek, ev⟩ := e
    by_cases h1 : ek = k
    · subst h1
      simp [mapGet] at h
      simp [mapSet, h]
    · simp [mapGet, h1] at h
      simp [mapSet, h1, ih h]

/-! ## Fetch-phase lemmas -/

theorem fetchPhase_db_other (cfg : GuildConfig)
    (outs : FollowedRepository → FetchOutcome × FetchOutcome) :
    ∀ (repos : List FollowedRepository) (db : DbState) (m : List (String × RepoData))
      (k : String), (∀ r ∈ repos, r.fullName ≠ k) →
      (fetchPhase cfg outs repos db m).1.contribCache k = db.contribCache k
      ∧ (fetchPhase cfg outs repos db m).1.starCache k = db.starCache k
      ∧ (fetchPhase cfg outs repos db m).1.lastSyncError k = db.lastSyncError k := by
  intro repos
  induction repos with
  | nil => intro db m k _; simp [fetchPhase]
  | cons r rest ih =>
    intro db m k hk
    have hr : ¬ (k = r.fullName) := fun h => hk r (by simp) h.symm
    have hrest : ∀ r' ∈ rest, r'.fullName ≠ k := fun r' h' => hk r' (by simp [h'])
    simp only [fetchPhase]
    obtain ⟨h1, h2, h3⟩ := ih (syncRepo cfg r (outs r).1 (outs r).2 db).1 _ k hrest
    rw [h1, h2, h3, syncRepo_contribCache, syncRepo_starCache, syncRepo_lastSyncError]
    simp [hr]

theorem fetchPhase_contribCache_at (cfg : GuildConfig)
    (outs : FollowedRepository → FetchOutcome × FetchOutcome) :
    ∀ (repos : List FollowedRepository) (db : DbState) (m : List (String × RepoData))
      (r : FollowedRepository), r ∈ repos →
      (repos.map FollowedRepository.fullName).Nodup →
      contribCacheWrite cfg (outs r).1 = none →
      (fetchPhase cfg outs repos db m).1.contribCache r.fullName =
        db.contribCache r.fullName := by
  intro repos
  induction repos with
  | nil => intro db m r h; simp at h
  | cons r0 rest ih =>
    intro db m r hmem hnd hw
    rcases List.mem_cons.mp hmem with heq | htail
    · subst heq
      have hrest : ∀ r' ∈ rest, r'.fullName ≠ r.fullName := by
        intro r' h' hcontra
        have := (List.nodup_cons.mp hnd).1
        exact this (hcontra ▸ List.mem_map_of_mem FollowedRepository.fullName h')
      simp only [fetchPhase]
      obtain ⟨h1, _, _⟩ := fetchPhase_db_other cfg outs rest
        (syncRepo cfg r (outs r).1 (outs r).2 db).1 _ r.fullName hrest
      rw [h1, syncRepo_contribCache]
      simp [hw]
    · have hne : ¬ (r.fullName = r0.fullName) := by
        intro hcontra
        have := (List.nodup_cons.mp hnd).1
        exact this (hcontra ▸ List.mem_map_of_mem FollowedRepository.fullName htail)
      simp only [fetchPhase]
      rw [ih _ _ r htail (List.nodup_cons.mp hnd).2 hw, syncRepo_contribCache]
      simp [hne]

theorem fetchPhase_starCache_at (cfg : GuildConfig)
    (outs : FollowedRepository → FetchOutcome × FetchOutcome) :
    ∀ (repos : List FollowedRepository) (db : DbState) (m : List (String × RepoData))
      (r : FollowedRepository), r ∈ repos →
      (repos.map FollowedRepository.fullName).Nodup →
      starCacheWrite cfg (outs r).1 (outs r).2 = none →
      (fetchPhase cfg outs repos db m).1.starCache r.fullName =
        db.starCache r.fullName := by
  intro repos
  induction repos with
  | nil => intro db m r h; simp at h
  | cons r0 rest ih =>
    intro db m r hmem hnd hw
    rcases List.mem_cons.mp hmem with heq | htail
    · subst heq
      have hrest : ∀ r' ∈ rest, r'.fullName ≠ r.fullName := by
        intro r' h' hcontra
        have := (List.nodup_cons.mp hnd).1
        exact this (hcontra ▸ List.mem_map_of_mem FollowedRepository.fullName h')
      simp only [fetchPhase]
      obtain ⟨_, h2, _⟩ := fetchPhase_db_other cfg outs rest
        (syncRepo cfg r (outs r).1 (outs r).2 db).1 _ r.fullName hrest
      rw [h2, syncRepo_starCache]
      simp [hw]
    · have hne : ¬ (r.fullName = r0.fullName) := by
        intro hcontra
        have := (List.nodup_cons.mp hnd).1
        exact this (hcontra ▸ List.mem_map_of_mem FollowedRepository.fullName htail)
      simp only [fetchPhase]
      rw [ih _ _ r htail (List.nodup_cons.mp hnd).2 hw, syncRepo_starCache]
      simp [hne]

theorem fetchPhase_lastSyncError_at (cfg : GuildConfig)
    (outs : FollowedRepository → FetchOutcome × FetchOutcome) :
    ∀ (repos : List FollowedRepository) (db : DbState) (m : List (String × RepoData))
      (r : FollowedRepository), r ∈ repos →
      (repos.map FollowedRepository.fullName).Nodup →
      (fetchPhase cfg outs repos db m).1.lastSyncError r.fullName =
        errWrite cfg (outs r).1 (outs r).2 := by
  intro repos
  induction repos with
  | nil => intro db m r h; simp at h
  | cons r0 rest ih =>
    intro db m r hmem hnd
    rcases List.mem_cons.mp hmem with heq | htail
    · subst heq
      have hrest : ∀ r' ∈ rest, r'.fullName ≠ r.fullName := by
        intro r' h' hcontra
        have := (List.nodup_cons.mp hnd).1
        exact this (hcontra ▸ List.mem_map_of_mem FollowedRepository.fullName h')
      simp only [fetchPhase]
      obtain ⟨_, _, h3⟩ := fetchPhase_db_other cfg outs rest
        (syncRepo cfg r (outs r).1 (outs r).2 db).1 _ r.fullName hrest
      rw [h3, syncRepo_lastSyncError]
      simp
    · simp only [fetchPhase]
      rw [ih _ _ r htail (List.nodup_cons.mp hnd).2]

theorem fetchPhase_map_other (cfg : GuildConfig)
    (outs : FollowedRepository → FetchOutcome × FetchOutcome) :
    ∀ (repos : List FollowedRepository) (db : DbState) (m : List (String × RepoData))
      (k : String), (∀ r ∈ repos, r.fullName ≠ k) →
      mapGet (fetchPhase cfg outs repos db m).2 k = mapGet m k := by
  intro repos
  induction repos with
  | nil => intro db m k _; simp [fetchPhase]
  | cons r rest ih =>
    intro db m k hk
    have hr : ¬ (k = r.fullName) := fun h => hk r (by simp) h.symm
    have hrest : ∀ r' ∈ rest, r'.fullName ≠ k := fun r' h' => hk r' (by simp [h'])
    simp only [fetchPhase]
    rw [ih _ _ k hrest]
    cases hstep : (syncRepo cfg r (outs r).1 (outs r).2 db).2 with
    | none => rfl
    | some data => rw [mapGet_mapSet]; simp [hr]

theorem fetchPhase_map_at (cfg : GuildConfig)
    (outs : FollowedRepository → FetchOutcome × FetchOutcome) :
    ∀ (repos : List FollowedRepository) (db : DbState) (m : List (String × RepoData))
      (r : FollowedRepository) (d : Option RepoData), r ∈ repos →
      (repos.map FollowedRepository.fullName).Nodup →
      (∀ cC sC, syncRepoData cfg (outs r).1 (outs r).2 cC sC = d) →
      mapGet (fetchPhase cfg outs repos db m).2 r.fullName =
        (match d with | some x => some x | none => mapGet m r.fullName) := by
  intro repos
  induction repos with
  | nil => intro db m r d h; simp at h
  | cons r0 rest ih =>
    intro db m r d hmem hnd hd
    rcases List.mem_cons.mp hmem with heq | htail
    · subst heq
      have hrest : ∀ r' ∈ rest, r'.fullName ≠ r.fullName := by
        intro r' h' hcontra
        have := (List.nodup_cons.mp hnd).1
        exact this (hcontra ▸ List.mem_map_of_mem FollowedRepository.fullName h')
      simp only [fetchPhase]
      rw [fetchPhase_map_other cfg outs rest _ _ r.fullName hrest]
      rw [syncRepo_snd, hd]
      cases d with
      | none => rfl
      | some data => rw [mapGet_mapSet]; simp
    · have hne : ¬ (r.fullName = r0.fullName) := by
        intro hcontra
        have := (List.nodup_cons.mp hnd).1
        exact this (hcontra ▸ List.mem_map_of_mem FollowedRepository.fullName htail)
      simp only [fetchPhase]
      rw [ih _ _ r d htail (List.nodup_cons.mp hnd).2 hd]
      cases hstep : (syncRepo cfg r0 (outs r0).1 (outs r0).2 db).2 with
      | none => rfl
      | some data =>
        cases d with
        | none => rw [mapGet_mapSet]; simp [hne]
        | some x => rfl

theorem syncRepoData_congr (cfg : GuildConfig) (cOut sOut : FetchOutcome)
    (cA sA cB sB : List String)
    (hc : cfg.contributorRoleId.isSome = true → cOut = .notModified → cA = cB)
    (hs : cfg.stargazerRoleId.isSome = true → sOut = .notModified → sA = sB) :
    syncRepoData cfg cOut sOut cA sA = syncRepoData cfg cOut sOut cB sB := by
  cases hcc : cfg.contributorRoleId.isSome <;> cases cOut <;>
    cases hss : cfg.stargazerRoleId.isSome <;> cases sOut <;>
      simp_all [syncRepoData, kindData]

theorem fetchPhase_map_congr (cfg : GuildConfig)
    (outs : FollowedRepository → FetchOutcome × FetchOutcome) :
    ∀ (repos : List FollowedRepository) (dbA dbB : DbState) (m : List (String × RepoData)),
      (∀ r ∈ repos,
        (cfg.contributorRoleId.isSome = true → (outs r).1 = .notModified →
          dbA.contribCache r.fullName = dbB.contribCache r.fullName)
        ∧ (cfg.stargazerRoleId.isSome = true → (outs r).2 = .notModified →
          dbA.starCache r.fullName = dbB.starCache r.fullName)) →
      (fetchPhase cfg outs repos dbA m).2 = (fetchPhase cfg outs repos dbB m).2 := by
  intro repos
  induction repos with
  | nil => intro dbA dbB m _; rfl
  | cons r rest ih =>
    intro dbA dbB m hA
    have hr := hA r (by simp)
    have hdata : (syncRepo cfg r (outs r).1 (outs r).2 dbA).2 =
        (syncRepo cfg r (outs r).1 (outs r).2 dbB).2 := by
      rw [syncRepo_snd, syncRepo_snd]
      exact syncRepoData_congr cfg _ _ _ _ _ _ hr.1 hr.2
    simp only [fetchPhase]
    rw [hdata]
    apply ih
    intro r' hr'
    have hold := hA r' (by simp [hr'])
    constructor
    · intro h1 h2
      rw [syncRepo_contribCache, syncRepo_contribCache]
      by_cases hk : r'.fullName = r.fullName
      · cases hw : contribCacheWrite cfg (outs r).1 with
        | some l => simp [hk, hw]
        | none => simp only [hk, hw, Option.getD_none, if_pos rfl]; exact hk ▸ hold.1 h1 h2
      · simp [hk, hold.1 h1 h2]
    · intro h1 h2
      rw [syncRepo_starCache, syncRepo_starCache]
      by_cases hk : r'.fullName = r.fullName
      · cases hw : starCacheWrite cfg (outs r).1 (outs r).2 with
        | some l => simp [hk, hw]
        | none => simp only [hk, hw, Option.getD_none, if_pos rfl]; exact hk ▸ hold.2 h1 h2
      · simp [hk, hold.2 h1 h2]

theorem contribCacheWrite_notModified (cfg : GuildConfig) :
    contribCacheWrite cfg .notModified = none := by
  cases hc : cfg.contributorRoleId.isSome <;> simp [contribCacheWrite, hc]

theorem starCacheWrite_notModified (cfg : GuildConfig) (cOut : FetchOutcome) :
    starCacheWrite cfg cOut .notModified = none := by
  cases hc : cfg.contributorRoleId.isSome <;> cases cOut <;>
    cases hs : cfg.stargazerRoleId.isSome <;> simp [starCacheWrite, hc, hs]

theorem fetchPhase_rerun_map (cfg : GuildConfig)
    (outs : FollowedRepository → FetchOutcome × FetchOutcome)
    (repos : List FollowedRepository) (db0 : DbState)
    (hnd : (repos.map FollowedRepository.fullName).Nodup) :
    (fetchPhase cfg outs repos (fetchPhase cfg outs repos db0 []).1 []).2 =
      (fetchPhase cfg outs repos db0 []).2 := by
  apply fetchPhase_map_congr
  intro r hr
  constructor
  · intro _ h2
    apply fetchPhase_contribCache_at cfg outs repos db0 [] r hr hnd
    rw [h2, contribCacheWrite_notModified]
  · intro _ h2
    apply fetchPhase_starCache_at cfg outs repos db0 [] r hr hnd
    rw [h2, starCacheWrite_notModified]

/-! ## Per-role processing lemmas -/

theorem findRole_id (roles : List Role) (rid : String) (role : Role)
    (h : findRole roles rid = some role) : role.id = rid := by
  have := List.find?_some h
  simpa using this

theorem processContributorRole_unconfigured (gh : String) (cfg : GuildConfig)
    (m : List (String × RepoData)) (guildRoles : List Role) (memberRoles : List String)
    (dok : Bool) (hc : cfg.contributorRoleId = none) :
    processContributorRole gh cfg m guildRoles memberRoles dok = ⟨0, 0, 0, memberRoles⟩ := by
  simp [processContributorRole, hc]

theorem processContributorRole_roleMissing (gh : String) (cfg : GuildConfig)
    (m : List (String × RepoData)) (guildRoles : List Role) (memberRoles : List String)
    (dok : Bool) (rid : String) (hc : cfg.contributorRoleId = some rid)
    (hfind : findRole guildRoles rid = none) :
    processContributorRole gh cfg m guildRoles memberRoles dok = ⟨0, 0, 0, memberRoles⟩ := by
  simp [processContributorRole, hc, hfind]

theorem processContributorRole_noop (gh : String) (cfg : GuildConfig)
    (m : List (String × RepoData)) (guildRoles : List Role) (memberRoles : List String)
    (dok : Bool) (rid : String) (role : Role) (hc : cfg.contributorRoleId = some rid)
    (hfind : findRole guildRoles rid = some role)
    (hstable : memberRoles.contains role.id = isContributorFor cfg m (jsToLower gh)) :
    processContributorRole gh cfg m guildRoles memberRoles dok = ⟨0, 0, 0, memberRoles⟩ := by
  simp only [processContributorRole, hc, hfind]
  by_cases hd : isContributorFor cfg m (jsToLower gh) <;> simp_all

theorem processContributorRole_establish (gh : String) (cfg : GuildConfig)
    (m : List (String × RepoData)) (guildRoles : List Role) (memberRoles : List String)
    (rid : String) (role : Role) (hc : cfg.contributorRoleId = some rid)
    (hfind : findRole guildRoles rid = some role) :
    (processContributorRole gh cfg m guildRoles memberRoles true).roles.contains role.id =
      isContributorFor cfg m (jsToLower gh) := by
  simp only [processContributorRole, hc, hfind]
  by_cases hd : isContributorFor cfg m (jsToLower gh) <;>
    by_cases hh : memberRoles.contains role.id = true <;>
      simp_all [List.contains, List.elem_eq_mem, List.mem_filter]

theorem processContributorRole_preserves (gh : String) (cfg : GuildConfig)
    (m : List (String × RepoData)) (guildRoles : List Role) (memberRoles : List String)
    (dok : Bool) (rid : String) (role : Role) (x : String)
    (hc : cfg.contributorRoleId = some rid)
    (hfind : findRole guildRoles rid = some role) (hx : x ≠ role.id) :
    (processContributorRole gh cfg m guildRoles memberRoles dok).roles.contains x =
      memberRoles.contains x := by
  simp only [processContributorRole, hc, hfind]
  by_cases hd : isContributorFor cfg m (jsToLower gh) <;>
    by_cases hh : memberRoles.contains role.id = true <;> cases dok <;>
      simp_all [List.contains, List.elem_eq_mem, List.mem_filter, hx]

theorem processStargazerRole_unconfigured (gh : String) (cfg : GuildConfig)
    (m : List (String × RepoData)) (guildRoles : List Role) (memberRoles : List String)
    (dok : Bool) (hs : cfg.stargazerRoleId = none) :
    processStargazerRole gh cfg m guildRoles memberRoles dok = ⟨0, 0, 0, memberRoles⟩ := by
  simp [processStargazerRole, hs]

theorem processStargazerRole_roleMissing (gh : String) (cfg : GuildConfig)
    (m : List (String × RepoData)) (guildRoles : List Role) (memberRoles : List String)
    (dok : Bool) (rid : String) (hs : cfg.stargazerRoleId = some rid)
    (hfind : findRole guildRoles rid = none) :
    processStargazerRole gh cfg m guildRoles memberRoles dok = ⟨0, 0, 0, memberRoles⟩ := by
  simp [processStargazerRole, hs, hfind]

theorem processStargazerRole_noop (gh : String) (cfg : GuildConfig)
    (m : List (String × RepoData)) (guildRoles : List Role) (memberRoles : List String)
    (dok : Bool) (rid : String) (role : Role) (hs : cfg.stargazerRoleId = some rid)
    (hfind : findRole guildRoles rid = some role)
    (hstable : memberRoles.contains role.id = isStargazerFor cfg m (jsToLower gh)) :
    processStargazerRole gh cfg m guildRoles memberRoles dok = ⟨0, 0, 0, memberRoles⟩ := by
  simp only [processStargazerRole, hs, hfind]
  by_cases hd : isStargazerFor cfg m (jsToLower gh) <;> simp_all

theorem processStargazerRole_establish (gh : String) (cfg : GuildConfig)
    (m : List (String × RepoData)) (guildRoles : List Role) (memberRoles : List String)
    (rid : String) (role : Role) (hs : cfg.stargazerRoleId = some rid)
    (hfind : findRole guildRoles rid = some role) :
    (processStargazerRole gh cfg m guildRoles memberRoles true).roles.contains role.id =
      isStargazerFor cfg m (jsToLower gh) := by
  simp only [processStargazerRole, hs, hfind]
  by_cases hd : isStargazerFor cfg m (jsToLower gh) <;>
    by_cases hh : memberRoles.contains role.id = true <;>
      simp_all [List.contains, List.elem_eq_mem, List.mem_filter]

theorem processStargazerRole_preserves (gh : String) (cfg : GuildConfig)
    (m : List (String × RepoData)) (guildRoles : List Role) (memberRoles : List String)
    (dok : Bool) (rid : String) (role : Role) (x : String)
    (hs : cfg.stargazerRoleId = some rid)
    (hfind : findRole guildRoles rid = some role) (hx : x ≠ role.id) :
    (processStargazerRole gh cfg m guildRoles memberRoles dok).roles.contains x =
      memberRoles.contains x := by
  simp only [processStargazerRole, hs, hfind]
  by_cases hd : isStargazerFor cfg m (jsToLower gh) <;>
    by_cases hh : memberRoles.contains role.id = true <;> cases dok <;>
      simp_all [List.contains, List.elem_eq_mem, List.mem_filter, hx]

/-! ## Per-user processing lemmas -/

/-- The configured contributor and stargazer role ids do not collide (two
different Discord roles). -/
def rolesDistinct (cfg : GuildConfig) : Prop :=
  ∀ c s, cfg.contributorRoleId = some c → cfg.stargazerRoleId = some s → c ≠ s

/-- A member role list on which both role kinds are settled: for each
configured role kind whose role exists in the guild, possession of the role
matches the decision function. -/
def rolesStableFor (cfg : GuildConfig) (m : List (String × RepoData))
    (guildRoles : List Role) (gh : String) (roles : List String) : Prop :=
  (∀ rid role, cfg.contributorRoleId = some rid → findRole guildRoles rid = some role →
    roles.contains role.id = isContributorFor cfg m (jsToLower gh))
  ∧ (∀ rid role, cfg.stargazerRoleId = some rid → findRole guildRoles rid = some role →
    roles.contains role.id = isStargazerFor cfg m (jsToLower gh))

theorem processUser_skip (cfg : GuildConfig) (m : List (String × RepoData))
    (guildRoles : List Role) (dok : Bool) (store : MemberStore) (u : LinkedUser)
    (h : u.activeDiscordId = none) :
    processUser cfg m guildRoles dok store u = ⟨store, 0, 0, 0, 0⟩ := by
  unfold LinkedUser.activeDiscordId at h
  unfold processUser
  cases hd : u.discordAccount <;> cases hg : u.gitHubAccount <;> simp_all

theorem processUser_notMember (cfg : GuildConfig) (m : List (String × RepoData))
    (guildRoles : List Role) (dok : Bool) (store : MemberStore) (u : LinkedUser)
    (did gh : String) (hd : u.discordAccount = some did) (hg : u.gitHubAccount = some gh)
    (hm : mapGet store did = none) :
    processUser cfg m guildRoles dok store u = ⟨store, 0, 0, 0, 0⟩ := by
  simp [processUser, hd, hg, hm]

theorem processUser_noop (cfg : GuildConfig) (m : List (String × RepoData))
    (guildRoles : List Role) (dok : Bool) (store : MemberStore) (u : LinkedUser)
    (did gh : String) (roles : List String)
    (hd : u.discordAccount = some did) (hg : u.gitHubAccount = some gh)
    (hm : mapGet store did = some roles)
    (hstable : rolesStableFor cfg m guildRoles gh roles) :
    processUser cfg m guildRoles dok store u = ⟨store, 1, 0, 0, 0⟩ := by
  have hr1 : (if cfg.contributorRoleId.isSome then
      processContributorRole gh cfg m guildRoles roles dok
    else ⟨0, 0, 0, roles⟩) = ⟨0, 0, 0, roles⟩ := by
    cases hc : cfg.contributorRoleId with
    | none => simp [hc]
    | some rid =>
      cases hfind : findRole guildRoles rid with
      | none => simp [hc, processContributorRole_roleMissing gh cfg m guildRoles roles dok rid hc hfind]
      | some role =>
        simp [hc, processContributorRole_noop gh cfg m guildRoles roles dok rid role hc hfind
          (hstable.1 rid role hc hfind)]
  have hr2 : (if cfg.stargazerRoleId.isSome then
      processStargazerRole gh cfg m guildRoles roles dok
    else ⟨0, 0, 0, roles⟩) = ⟨0, 0, 0, roles⟩ := by
    cases hs : cfg.stargazerRoleId with
    | none => simp [hs]
    | some rid =>
      cases hfind : findRole guildRoles rid with
      | none => simp [hs, processStargazerRole_roleMissing gh cfg m guildRoles roles dok rid hs hfind]
      | some role =>
        simp [hs, processStargazerRole_noop gh cfg m guildRoles roles dok rid role hs hfind
          (hstable.2 rid role hs hfind)]
  simp only [processUser, hd, hg, hm, hr1, hr2]
  simp [mapSet_self store did roles hm]

theorem processUser_establish (cfg : GuildConfig) (m : List (String × RepoData))
    (guildRoles : List Role) (store : MemberStore) (u : LinkedUser)
    (did gh : String) (roles : List String) (hdistinct : rolesDistinct cfg)
    (hd : u.discordAccount = some did) (hg : u.gitHubAccount = some gh)
    (hm : mapGet store did = some roles) :
    ∃ roles2, mapGet (processUser cfg m guildRoles true store u).store did = some roles2
      ∧ rolesStableFor cfg m guildRoles gh roles2 := by
  simp only [processUser, hd, hg, hm]
  refine ⟨(if cfg.stargazerRoleId.isSome then
      processStargazerRole gh cfg m guildRoles
        (if cfg.contributorRoleId.isSome then
          processContributorRole gh cfg m guildRoles roles true
        else ⟨0, 0, 0, roles⟩).roles true
    else ⟨0, 0, 0, (if cfg.contributorRoleId.isSome then
          processContributorRole gh cfg m guildRoles roles true
        else ⟨0, 0, 0, roles⟩).roles⟩).roles, ?_, ?_, ?_⟩
  · rw [mapGet_mapSet]
    simp
  · intro rid role hc hfind
    have hr1 : (if cfg.contributorRoleId.isSome then
        processContributorRole gh cfg m guildRoles roles true
      else ⟨0, 0, 0, roles⟩) = processContributorRole gh cfg m guildRoles roles true := by
      simp [hc]
    rw [hr1]
    have hbase := processContributorRole_establish gh cfg m guildRoles roles rid role hc hfind
    cases hs : cfg.stargazerRoleId with
    | none => simpa [hs] using hbase
    | some sid =>
      cases hsfind : findRole guildRoles sid with
      | none =>
        simp only [hs, Option.isSome_some, if_pos]
        rw [processStargazerRole_roleMissing gh cfg m guildRoles _ true sid hs hsfind]
        simpa using hbase
      | some srole =>
        simp only [hs, Option.isSome_some, if_pos]
        rw [processStargazerRole_preserves gh cfg m guildRoles _ true sid srole role.id hs hsfind
          (by rw [findRole_id guildRoles rid role hfind, findRole_id guildRoles sid srole hsfind]
              exact hdistinct rid sid hc hs)]
        exact hbase
  · intro sid srole hs hsfind
    have hr2pick : (if cfg.stargazerRoleId.isSome then
        processStargazerRole gh cfg m guildRoles
          (if cfg.contributorRoleId.isSome then
            processContributorRole gh cfg m guildRoles roles true
          else ⟨0, 0, 0, roles⟩).roles true
      else ⟨0, 0, 0, (if cfg.contributorRoleId.isSome then
            processContributorRole gh cfg m guildRoles roles true
          else ⟨0, 0, 0, roles⟩).roles⟩) =
        processStargazerRole gh cfg m guildRoles
          (if cfg.contributorRoleId.isSome then
            processContributorRole gh cfg m guildRoles roles true
          else ⟨0, 0, 0, roles⟩).roles true := by
      simp [hs]
    rw [hr2pick]
    exact processStargazerRole_establish gh cfg m guildRoles _ sid srole hs hsfind

/-! ## User-loop lemmas -/

/-- Processing this user against this member store mutates nothing: the store
is returned unchanged and all counters but `totalProcessed` are zero. -/
def userNoop (cfg : GuildConfig) (m : List (String × RepoData)) (guildRoles : List Role)
    (store : MemberStore) (u : LinkedUser) : Prop :=
  (processUser cfg m guildRoles true store u).store = store
  ∧ (processUser cfg m guildRoles true store u).added = 0
  ∧ (processUser cfg m guildRoles true store u).removed = 0
  ∧ (processUser cfg m guildRoles true store u).calls = 0

theorem userNoop_of_stableValue (cfg : GuildConfig) (m : List (String × RepoData))
    (guildRoles : List Role) (store : MemberStore) (u : LinkedUser)
    (h : ∀ did gh, u.discordAccount = some did → u.gitHubAccount = some gh →
      mapGet store did = none
      ∨ ∃ roles, mapGet store did = some roles ∧ rolesStableFor cfg m guildRoles gh roles) :
    userNoop cfg m guildRoles store u := by
  cases hd : u.discordAccount with
  | none =>
    have hskip : u.activeDiscordId = none := by
      unfold LinkedUser.activeDiscordId
      rw [hd]
    rw [userNoop, processUser_skip cfg m guildRoles true store u hskip]
    exact ⟨rfl, rfl, rfl, rfl⟩
  | some did =>
    cases hg : u.gitHubAccount with
    | none =>
      have hskip : u.activeDiscordId = none := by
        unfold LinkedUser.activeDiscordId
        rw [hd, hg]
      rw [userNoop, processUser_skip cfg m guildRoles true store u hskip]
      exact ⟨rfl, rfl, rfl, rfl⟩
    | some gh =>
      rcases h did gh hd hg with hnone | ⟨roles, hroles, hstable⟩
      · rw [userNoop, processUser_notMember cfg m guildRoles true store u did gh hd hg hnone]
        exact ⟨rfl, rfl, rfl, rfl⟩
      · rw [userNoop, processUser_noop cfg m guildRoles true store u did gh roles hd hg hroles hstable]
        exact ⟨rfl, rfl, rfl, rfl⟩

theorem processUser_store_other (cfg : GuildConfig) (m : List (String × RepoData))
    (guildRoles : List Role) (dok : Bool) (store : MemberStore) (u : LinkedUser)
    (k : String) (hk : ∀ did, u.activeDiscordId = some did → did ≠ k) :
    mapGet (processUser cfg m guildRoles dok store u).store k = mapGet store k := by
  cases hd : u.discordAccount with
  | none =>
    rw [processUser_skip cfg m guildRoles dok store u
      (by unfold LinkedUser.activeDiscordId; rw [hd])]
  | some did =>
    cases hg : u.gitHubAccount with
    | none =>
      rw [processUser_skip cfg m guildRoles dok store u
        (by unfold LinkedUser.activeDiscordId; rw [hd, hg])]
    | some gh =>
      have hdid : did ≠ k := hk did (by unfold LinkedUser.activeDiscordId; rw [hd, hg])
      cases hm : mapGet store did with
      | none => rw [processUser_notMember cfg m guildRoles dok store u did gh hd hg hm]
      | some roles =>
        simp only [processUser, hd, hg, hm]
        rw [mapGet_mapSet, if_neg (fun h : k = did => hdid h.symm)]

theorem processUsers_store_other (cfg : GuildConfig) (m : List (String × RepoData))
    (guildRoles : List Role) (dok : Bool) :
    ∀ (users : List LinkedUser) (store : MemberStore) (k : String),
      (∀ u ∈ users, ∀ did, u.activeDiscordId = some did → did ≠ k) →
      mapGet (processUsers cfg m guildRoles dok users store).store k = mapGet store k := by
  intro users
  induction users with
  | nil => intro store k _; rfl
  | cons v rest ih =>
    intro store k hk
    simp only [processUsers]
    rw [ih _ k (fun u hu => hk u (by simp [hu]))]
    exact processUser_store_other cfg m guildRoles dok store v k (hk v (by simp))

theorem processUsers_allNoop (cfg : GuildConfig) (m : List (String × RepoData))
    (guildRoles : List Role) :
    ∀ (users : List LinkedUser) (store : MemberStore),
      (∀ u ∈ users, userNoop cfg m guildRoles store u) →
      (processUsers cfg m guildRoles true users store).store = store
      ∧ (processUsers cfg m guildRoles true users store).added = 0
      ∧ (processUsers cfg m guildRoles true users store).removed = 0
      ∧ (processUsers cfg m guildRoles true users store).calls = 0 := by
  intro users
  induction users with
  | nil => intro store _; exact ⟨rfl, rfl, rfl, rfl⟩
  | cons v rest ih =>
    intro store h
    have hv := h v (by simp)
    obtain ⟨hs, ha, hr, hc⟩ := hv
    simp only [processUsers, hs, ha, hr, hc]
    obtain ⟨ihs, iha, ihr, ihc⟩ := ih store (fun u hu => h u (by simp [hu]))
    exact ⟨ihs, by omega, by omega, by omega⟩

theorem processUsers_establish (cfg : GuildConfig) (m : List (String × RepoData))
    (guildRoles : List Role) (hdistinct : rolesDistinct cfg) :
    ∀ (users : List LinkedUser) (store : MemberStore),
      (users.filterMap LinkedUser.activeDiscordId).Nodup →
      ∀ u ∈ users, userNoop cfg m guildRoles
        (processUsers cfg m guildRoles true users store).store u := by
  intro users
  induction users with
  | nil => intro store _ u hu; simp at hu
  | cons v rest ih =>
    intro store hnd u hu
    simp only [processUsers]
    rcases List.mem_cons.mp hu with heq | htail
    · subst heq
      cases hd : u.discordAccount with
      | none =>
        exact userNoop_of_stableValue cfg m guildRoles _ u
          (fun did gh hdd _ => by rw [hd] at hdd; cases hdd)
      | some did =>
        cases hg : u.gitHubAccount with
        | none =>
          exact userNoop_of_stableValue cfg m guildRoles _ u
            (fun did' gh hdd hgg => by rw [hg] at hgg; cases hgg)
        | some gh =>
          have hactive : u.activeDiscordId = some did := by
            unfold LinkedUser.activeDiscordId
            rw [hd, hg]
          have hnotin : ∀ u' ∈ rest, ∀ did', u'.activeDiscordId = some did' → did' ≠ did := by
            intro u' hu' did' hdid' hcontra
            have h1 : (rest.filterMap LinkedUser.activeDiscordId).Nodup ∧
                did ∉ rest.filterMap LinkedUser.activeDiscordId := by
              rw [List.filterMap_cons, hactive] at hnd
              exact ⟨(List.nodup_cons.mp hnd).2, (List.nodup_cons.mp hnd).1⟩
            exact h1.2 (hcontra ▸ List.mem_filterMap.mpr ⟨u', hu', hdid'⟩)
          apply userNoop_of_stableValue cfg m guildRoles _ u
          intro did' gh' hdd hgg
          rw [hd] at hdd
          rw [hg] at hgg
          cases hdd
          cases hgg
          rw [processUsers_store_other cfg m guildRoles true rest _ did hnotin]
          cases hm : mapGet store did with
          | none =>
            left
            rw [processUser_notMember cfg m guildRoles true store u did gh hd hg hm]
            exact hm
          | some roles =>
            right
            obtain ⟨roles2, hget2, hstable2⟩ :=
              processUser_establish cfg m guildRoles store u did gh roles hdistinct hd hg hm
            exact ⟨roles2, hget2, hstable2⟩
    · have hndrest : (rest.filterMap LinkedUser.activeDiscordId).Nodup := by
        rw [List.filterMap_cons] at hnd
        cases hv : v.activeDiscordId with
        | none => rw [hv] at hnd; exact hnd
        | some d => rw [hv] at hnd; exact (List.nodup_cons.mp hnd).2
      exact ih _ hndrest u htail

/-- C3 (amended): a second reconciliation performs no role mutations — zero
roles added, zero removed, zero Discord role calls attempted — whenever the
configured contributor and stargazer role ids are distinct and the second
run's fetch phase yields the same per-repository data map as the first
run's.  The first conjunct shows a sufficient condition for that map
equality: both runs observing identical fetch outcomes (over repositories
with distinct full names, unique per guild by schema constraint).  Upstream
sets being merely unchanged is not sufficient: a fresh fetch of an empty set
keeps stale cache rows (the length guard of role-sync.ts line 208) that a
later 304 resurrects — the counterexample's second scenario.  The remaining
hypotheses are the schema-guaranteed uniqueness of linked Discord ids and
that Discord calls succeed. -/
theorem syncGuild_second_run_idempotent (cfg : GuildConfig) (gs : GuildState)
    (outs1 outs2 : FollowedRepository → FetchOutcome × FetchOutcome)
    (users : List LinkedUser) (db : DbState)
    (hids : (users.filterMap LinkedUser.activeDiscordId).Nodup)
    (hdistinct : rolesDistinct cfg)
    (hmap : (fetchPhase cfg outs2 cfg.repositories
        (fetchPhase cfg outs1 cfg.repositories db []).1 []).2 =
      (fetchPhase cfg outs1 cfg.repositories db []).2) :
    ((cfg.repositories.map FollowedRepository.fullName).Nodup →
      ∀ (outs : FollowedRepository → FetchOutcome × FetchOutcome) (db0 : DbState),
        (fetchPhase cfg outs cfg.repositories
            (fetchPhase cfg outs cfg.repositories db0 []).1 []).2 =
          (fetchPhase cfg outs cfg.repositories db0 []).2)
    ∧ (syncGuild cfg (syncGuild cfg gs outs1 users db true).guild outs2 users
        (syncGuild cfg gs outs1 users db true).db true).result.rolesAdded = 0
    ∧ (syncGuild cfg (syncGuild cfg gs outs1 users db true).guild outs2 users
        (syncGuild cfg gs outs1 users db true).db true).result.rolesRemoved = 0
    ∧ (syncGuild cfg (syncGuild cfg gs outs1 users db true).guild outs2 users
        (syncGuild cfg gs outs1 users db true).db true).result.calls = 0 := by
  refine ⟨fun hnd outs db0 => fetchPhase_rerun_map cfg outs cfg.repositories db0 hnd, ?_⟩
  cases hgf : gs.guildFound with
  | false => simp [syncGuild, hgf]
  | true =>
    cases hmr : gs.botHasManageRoles with
    | false => simp [syncGuild, hgf, hmr]
    | true =>
      simp only [syncGuild, hgf, hmr, Bool.not_true, Bool.false_eq_true, if_false]
      rw [hmap]
      have hnoop := processUsers_establish cfg
        (fetchPhase cfg outs1 cfg.repositories db []).2 gs.roles hdistinct users
        gs.members hids
      obtain ⟨_, ha, hr, hc⟩ := processUsers_allNoop cfg
        (fetchPhase cfg outs1 cfg.repositories db []).2 gs.roles users
        (processUsers cfg (fetchPhase cfg outs1 cfg.repositories db []).2 gs.roles true users
          gs.members).store hnoop
      exact ⟨ha, hr, hc⟩

/-- C3 (counterexample): two scenarios refute the claim as stated.
(1) Shared role id: when the contributor and the stargazer role are
configured to the same Discord role id and a linked guild member is a
contributor but not a stargazer, every run grants the role in the
contributor step and revokes it again in the stargazer step.  The second
run — same fetch outcomes, and the member's role list (empty) unchanged in
between, as the third conjunct shows — still records rolesAdded = 1 and
rolesRemoved = 1.
(2) Stale cache: with distinct role ids (only a contributor role is
configured) and the upstream contributor set empty and unchanged, the first
run observes the set fresh — the empty-list guard keeps the stale cached row
"alice" (fifth conjunct) while the role is revoked — and the second run
observes 304, substitutes the stale row, and re-grants the role: rolesAdded
= 1 on the second run (fourth conjunct). -/
theorem syncGuild_second_run_mutates_on_shared_role_id :
    (syncGuild ⟨"g", some "R", some "R", [⟨"acme", "widgets"⟩]⟩
        (syncGuild ⟨"g", some "R", some "R", [⟨"acme", "widgets"⟩]⟩
          ⟨true, true, 100, [⟨"R", 1⟩], [("d1", [])]⟩
          (fun _ => (.fresh ["alice"], .fresh ["bob"]))
          [⟨some "d1", some "Alice"⟩] ⟨fun _ => [], fun _ => [], fun _ => none⟩ true).guild
        (fun _ => (.fresh ["alice"], .fresh ["bob"]))
        [⟨some "d1", some "Alice"⟩]
        (syncGuild ⟨"g", some "R", some "R", [⟨"acme", "widgets"⟩]⟩
          ⟨true, true, 100, [⟨"R", 1⟩], [("d1", [])]⟩
          (fun _ => (.fresh ["alice"], .fresh ["bob"]))
          [⟨some "d1", some "Alice"⟩] ⟨fun _ => [], fun _ => [], fun _ => none⟩ true).db
        true).result.rolesAdded = 1
    ∧ (syncGuild ⟨"g", some "R", some "R", [⟨"acme", "widgets"⟩]⟩
        (syncGuild ⟨"g", some "R", some "R", [⟨"acme", "widgets"⟩]⟩
          ⟨true, true, 100, [⟨"R", 1⟩], [("d1", [])]⟩
          (fun _ => (.fresh ["alice"], .fresh ["bob"]))
          [⟨some "d1", some "Alice"⟩] ⟨fun _ => [], fun _ => [], fun _ => none⟩ true).guild
        (fun _ => (.fresh ["alice"], .fresh ["bob"]))
        [⟨some "d1", some "Alice"⟩]
        (syncGuild ⟨"g", some "R", some "R", [⟨"acme", "widgets"⟩]⟩
          ⟨true, true, 100, [⟨"R", 1⟩], [("d1", [])]⟩
          (fun _ => (.fresh ["alice"], .fresh ["bob"]))
          [⟨some "d1", some "Alice"⟩] ⟨fun _ => [], fun _ => [], fun _ => none⟩ true).db
        true).result.rolesRemoved = 1
    ∧ (syncGuild ⟨"g", some "R", some "R", [⟨"acme", "widgets"⟩]⟩
        ⟨true, true, 100, [⟨"R", 1⟩], [("d1", [])]⟩
        (fun _ => (.fresh ["alice"], .fresh ["bob"]))
        [⟨some "d1", some "Alice"⟩] ⟨fun _ => [], fun _ => [], fun _ => none⟩
        true).guild.members = [("d1", [])]
    ∧ (syncGuild ⟨"g", some "C", none, [⟨"acme", "widgets"⟩]⟩
        (syncGuild ⟨"g", some "C", none, [⟨"acme", "widgets"⟩]⟩
          ⟨true, true, 100, [⟨"C", 1⟩], [("d1", ["C"])]⟩
          (fun _ => (.fresh [], .fresh []))
          [⟨some "d1", some "Alice"⟩]
          ⟨fun _ => ["alice"], fun _ => [], fun _ => none⟩ true).guild
        (fun _ => (.notModified, .fresh []))
        [⟨some "d1", some "Alice"⟩]
        (syncGuild ⟨"g", some "C", none, [⟨"acme", "widgets"⟩]⟩
          ⟨true, true, 100, [⟨"C", 1⟩], [("d1", ["C"])]⟩
          (fun _ => (.fresh [], .fresh []))
          [⟨some "d1", some "Alice"⟩]
          ⟨fun _ => ["alice"], fun _ => [], fun _ => none⟩ true).db
        true).result.rolesAdded = 1
    ∧ (syncGuild ⟨"g", some "C", none, [⟨"acme", "widgets"⟩]⟩
        ⟨true, true, 100, [⟨"C", 1⟩], [("d1", ["C"])]⟩
        (fun _ => (.fresh [], .fresh []))
        [⟨some "d1", some "Alice"⟩]
        ⟨fun _ => ["alice"], fun _ => [], fun _ => none⟩
        true).db.contribCache "acme/widgets" = ["alice"] := by
  refine ⟨by decide, by decide, by decide, by decide, by decide⟩

/-- C1 (counterexample): a guild whose configured stargazer role sits at a
position above the bot's highest role — `stargazerHierarchyBlocked` holds,
the condition of role-sync.ts lines 118-129 — is nevertheless reconciled to a
successful SyncHistory record with one role grant performed: the hierarchy
check only logs a warning, it does not short-circuit to Failed. -/
theorem syncGuild_succeeds_despite_blocked_hierarchy :
    stargazerHierarchyBlocked ⟨"g1", none, some "R", [⟨"acme", "widgets"⟩]⟩
      ⟨true, true, 5, [⟨"R", 10⟩], [("d1", [])]⟩ = true
    ∧ (syncGuild ⟨"g1", none, some "R", [⟨"acme", "widgets"⟩]⟩
        ⟨true, true, 5, [⟨"R", 10⟩], [("d1", [])]⟩
        (fun _ => (.fresh [], .fresh ["alice"]))
        [⟨some "d1", some "Alice"⟩]
        ⟨fun _ => [], fun _ => [], fun _ => none⟩ true).result.success = true
    ∧ (syncGuild ⟨"g1", none, some "R", [⟨"acme", "widgets"⟩]⟩
        ⟨true, true, 5, [⟨"R", 10⟩], [("d1", [])]⟩
        (fun _ => (.fresh [], .fresh ["alice"]))
        [⟨some "d1", some "Alice"⟩]
        ⟨fun _ => [], fun _ => [], fun _ => none⟩ true).result.calls = 1
    ∧ (syncGuild ⟨"g1", none, some "R", [⟨"acme", "widgets"⟩]⟩
        ⟨true, true, 5, [⟨"R", 10⟩], [("d1", [])]⟩
        (fun _ => (.fresh [], .fresh ["alice"]))
        [⟨some "d1", some "Alice"⟩]
        ⟨fun _ => [], fun _ => [], fun _ => none⟩ true).result.rolesAdded = 1 := by
  refine ⟨by decide, by decide, by decide, by decide⟩

/-- C1 (amended): the preconditions that do short-circuit a guild sync to the
Failed state are the guild missing from the Discord cache and the bot lacking
the ManageRoles permission: either one finalizes the SyncHistory record with
success = false, a descriptive error message, and zero role mutations
attempted.  A configured role at or above the bot's highest role only logs a
warning (see the counterexample). -/
theorem syncGuild_failed_on_missing_guild_or_permission (cfg : GuildConfig)
    (gs : GuildState) (outs : FollowedRepository → FetchOutcome × FetchOutcome)
    (users : List LinkedUser) (db : DbState) (dok : Bool)
    (h : gs.guildFound = false ∨ gs.botHasManageRoles = false) :
    (syncGuild cfg gs outs users db dok).result.success = false
    ∧ (syncGuild cfg gs outs users db dok).result.calls = 0
    ∧ (syncGuild cfg gs outs users db dok).result.rolesAdded = 0
    ∧ (syncGuild cfg gs outs users db dok).result.rolesRemoved = 0
    ∧ (syncGuild cfg gs outs users db dok).result.errorMessage.isSome = true := by
  rcases h with h | h
  · simp [syncGuild, h]
  · cases hgf : gs.guildFound <;> simp [syncGuild, h, hgf]

/-- C1 (witness): the amended theorem applied to a concrete guild missing
from Discord. -/
theorem syncGuild_failed_on_missing_guild_or_permission_witness :
    (syncGuild ⟨"g1", none, some "R", []⟩ ⟨false, true, 5, [], []⟩
      (fun _ => (.notModified, .notModified)) [] ⟨fun _ => [], fun _ => [], fun _ => none⟩
      true).result.success = false := by
  exact (syncGuild_failed_on_missing_guild_or_permission ⟨"g1", none, some "R", []⟩
    ⟨false, true, 5, [], []⟩ (fun _ => (.notModified, .notModified)) []
    ⟨fun _ => [], fun _ => [], fun _ => none⟩ true (Or.inl rfl)).1

/-- C8: with the default configuration the sync interval is 15 minutes
(900000 ms) while a pass whose cross-guild orchestration throws is retried
only after SYNC_ERROR_RETRY_MS = 30 minutes (1800000 ms) — longer than the
interval, not shorter, contradicting the claim and the source's own comment;
a successful pass is rescheduled after the full interval. -/
theorem scheduler_error_retry_slower_than_default_interval :
    syncIntervalMs none = 900000
    ∧ runSyncNextDelayMs (syncIntervalMs none) true (.error "sync failed") = SYNC_ERROR_RETRY_MS
    ∧ SYNC_ERROR_RETRY_MS = 1800000
    ∧ runSyncNextDelayMs (syncIntervalMs none) true (.ok ()) = syncIntervalMs none
    ∧ syncIntervalMs none < SYNC_ERROR_RETRY_MS := by
  refine ⟨?_, ?_, ?_, ?_, ?_⟩ <;>
    norm_num [syncIntervalMs, runSyncNextDelayMs, SYNC_ERROR_RETRY_MS,
      DEFAULT_SYNC_INTERVAL_HOURS]

/-- C9 (counterexample): a successful non-304 contributor fetch that returns
the empty login set does not replace the cached membership rows: the stale
row "alice" survives (the source guards the delete-and-rewrite with
`contributors.length > 0`), while the repository step itself succeeds and
stores the empty list into the data map. -/
theorem syncRepo_empty_fresh_fetch_keeps_stale_cache :
    (syncRepo ⟨"g", some "C", none, [⟨"acme", "widgets"⟩]⟩ ⟨"acme", "widgets"⟩
        (.fresh []) (.fresh []) ⟨fun _ => ["alice"], fun _ => [], fun _ => none⟩).1.contribCache
      "acme/widgets" = ["alice"]
    ∧ (syncRepo ⟨"g", some "C", none, [⟨"acme", "widgets"⟩]⟩ ⟨"acme", "widgets"⟩
        (.fresh []) (.fresh []) ⟨fun _ => ["alice"], fun _ => [], fun _ => none⟩).2 =
      some ⟨[], []⟩ := by
  refine ⟨by decide, by decide⟩

/-- C9 (amended): a successful non-304 fetch whose login set is non-empty
fully replaces the corresponding cache entry — the stored rows afterwards
equal exactly the new fetch result — while a successful fetch of an empty set
leaves the previous cache contents in place.  (The stargazer conjuncts also
assume the contributor fetch of the same step did not throw, since a throw
skips the stargazer fetch altogether.) -/
theorem syncRepo_fresh_fetch_replaces_cache (cfg : GuildConfig)
    (repo : FollowedRepository) (cOut sOut : FetchOutcome) (db : DbState)
    (l : List String) :
    (cfg.contributorRoleId.isSome = true → cOut = .fresh l → l ≠ [] →
      (syncRepo cfg repo cOut sOut db).1.contribCache repo.fullName = l)
    ∧ (cOut = .fresh [] →
      ∀ k, (syncRepo cfg repo cOut sOut db).1.contribCache k = db.contribCache k)
    ∧ (cfg.stargazerRoleId.isSome = true → sOut = .fresh l → l ≠ [] →
      (∀ msg, cOut ≠ .throws msg) →
      (syncRepo cfg repo cOut sOut db).1.starCache repo.fullName = l)
    ∧ (sOut = .fresh [] →
      ∀ k, (syncRepo cfg repo cOut sOut db).1.starCache k = db.starCache k) := by
  refine ⟨?_, ?_, ?_, ?_⟩
  · intro hc hcut hl
    rw [syncRepo_contribCache]
    simp [contribCacheWrite, hc, hcut, hl]
  · intro hcut k
    rw [syncRepo_contribCache, hcut]
    cases hc : cfg.contributorRoleId.isSome <;> simp [contribCacheWrite, hc]
  · intro hs hsut hl hnothrow
    rw [syncRepo_starCache]
    cases hcut : cOut with
    | throws msg => exact absurd hcut (hnothrow msg)
    | notModified =>
      cases hc : cfg.contributorRoleId.isSome <;>
        simp [starCacheWrite, hc, hs, hsut, hl]
    | fresh l' =>
      cases hc : cfg.contributorRoleId.isSome <;>
        simp [starCacheWrite, hc, hs, hsut, hl]
  · intro hsut k
    rw [syncRepo_starCache, hsut]
    cases hc : cfg.contributorRoleId.isSome <;> cases hcut : cOut <;>
      cases hs : cfg.stargazerRoleId.isSome <;> simp [starCacheWrite, hc, hs]

/-- C9 (witness): a fresh non-empty contributor fetch replaces the stale
cached row at the repository's key. -/
theorem syncRepo_fresh_fetch_replaces_cache_witness :
    (syncRepo ⟨"g", some "C", none, [⟨"acme", "widgets"⟩]⟩ ⟨"acme", "widgets"⟩
        (.fresh ["bob"]) (.fresh []) ⟨fun _ => ["alice"], fun _ => [], fun _ => none⟩).1.contribCache
      "acme/widgets" = ["bob"] :=
  (syncRepo_fresh_fetch_replaces_cache ⟨"g", some "C", none, [⟨"acme", "widgets"⟩]⟩
    ⟨"acme", "widgets"⟩ (.fresh ["bob"]) (.fresh [])
    ⟨fun _ => ["alice"], fun _ => [], fun _ => none⟩ ["bob"]).1 rfl rfl (by decide)

/-- C5: when a conditional fetch reports 304 Not Modified for a configured
data kind, the repository's data-map entry carries exactly the cached
membership rows for that repository and kind; in particular a non-empty
cached set is never replaced by the empty set. -/
theorem syncRepo_notModified_substitutes_cache (cfg : GuildConfig)
    (repo : FollowedRepository) (cOut sOut : FetchOutcome) (db : DbState) :
    (cfg.contributorRoleId.isSome = true → cOut = .notModified →
      ∀ d, (syncRepo cfg repo cOut sOut db).2 = some d →
        d.contributors = db.contribCache repo.fullName)
    ∧ (cfg.stargazerRoleId.isSome = true → sOut = .notModified →
      ∀ d, (syncRepo cfg repo cOut sOut db).2 = some d →
        d.stargazers = db.starCache repo.fullName)
    ∧ (cfg.contributorRoleId.isSome = true → cOut = .notModified →
      db.contribCache repo.fullName ≠ [] →
      ∀ d, (syncRepo cfg repo cOut sOut db).2 = some d → d.contributors ≠ []) := by
  have h1 : cfg.contributorRoleId.isSome = true → cOut = .notModified →
      ∀ d, (syncRepo cfg repo cOut sOut db).2 = some d →
        d.contributors = db.contribCache repo.fullName := by
    intro hc hcut d hd
    rw [syncRepo_snd] at hd
    simp only [syncRepoData] at hd
    rcases hkc : kindData cfg.contributorRoleId.isSome cOut (db.contribCache repo.fullName)
      with _ | cs
    · rw [hkc] at hd
      exact absurd hd (by simp)
    · rw [hkc] at hd
      rcases hks : kindData cfg.stargazerRoleId.isSome sOut (db.starCache repo.fullName)
        with _ | ss
      · rw [hks] at hd
        exact absurd hd (by simp)
      · rw [hks] at hd
        rw [hc, hcut] at hkc
        simp only [kindData, if_true] at hkc
        injection hd with hd2
        rw [← hd2]
        injection hkc with hkc2
        exact hkc2.symm
  have h2 : cfg.stargazerRoleId.isSome = true → sOut = .notModified →
      ∀ d, (syncRepo cfg repo cOut sOut db).2 = some d →
        d.stargazers = db.starCache repo.fullName := by
    intro hs hsut d hd
    rw [syncRepo_snd] at hd
    simp only [syncRepoData] at hd
    rcases hkc : kindData cfg.contributorRoleId.isSome cOut (db.contribCache repo.fullName)
      with _ | cs
    · rw [hkc] at hd
      exact absurd hd (by simp)
    · rw [hkc] at hd
      rcases hks : kindData cfg.stargazerRoleId.isSome sOut (db.starCache repo.fullName)
        with _ | ss
      · rw [hks] at hd
        exact absurd hd (by simp)
      · rw [hks] at hd
        rw [hs, hsut] at hks
        simp only [kindData, if_true] at hks
        injection hd with hd2
        rw [← hd2]
        injection hks with hks2
        exact hks2.symm
  exact ⟨h1, h2, fun hc hcut hne d hd => (h1 hc hcut d hd) ▸ hne⟩

/-- C5 (witness): a 304 contributor response with a non-empty cached set
yields exactly that cached set in the repository's data. -/
theorem syncRepo_notModified_substitutes_cache_witness :
    (syncRepo ⟨"g", some "C", none, [⟨"acme", "widgets"⟩]⟩ ⟨"acme", "widgets"⟩
        .notModified .notModified ⟨fun _ => ["alice"], fun _ => [], fun _ => none⟩).2 =
      some ⟨["alice"], []⟩
    ∧ (RepoData.mk ["alice"] []).contributors =
      (DbState.mk (fun _ => ["alice"]) (fun _ => []) (fun _ => none)).contribCache
        (FollowedRepository.mk "acme" "widgets").fullName :=
  ⟨by decide,
    (syncRepo_notModified_substitutes_cache ⟨"g", some "C", none, [⟨"acme", "widgets"⟩]⟩
      ⟨"acme", "widgets"⟩ .notModified .notModified
      ⟨fun _ => ["alice"], fun _ => [], fun _ => none⟩).1 rfl rfl ⟨["alice"], []⟩
      (by decide)⟩

/-- C3 (witness): the amended idempotence theorem at a concrete guild with
distinct contributor and stargazer roles: the second run adds and removes
nothing. -/
theorem syncGuild_second_run_idempotent_witness :
    (syncGuild ⟨"g", some "C", some "S", [⟨"acme", "widgets"⟩]⟩
        (syncGuild ⟨"g", some "C", some "S", [⟨"acme", "widgets"⟩]⟩
          ⟨true, true, 100, [⟨"C", 1⟩, ⟨"S", 2⟩], [("d1", [])]⟩
          (fun _ => (.fresh ["alice"], .fresh []))
          [⟨some "d1", some "Alice"⟩] ⟨fun _ => [], fun _ => [], fun _ => none⟩ true).guild
        (fun _ => (.fresh ["alice"], .fresh []))
        [⟨some "d1", some "Alice"⟩]
        (syncGuild ⟨"g", some "C", some "S", [⟨"acme", "widgets"⟩]⟩
          ⟨true, true, 100, [⟨"C", 1⟩, ⟨"S", 2⟩], [("d1", [])]⟩
          (fun _ => (.fresh ["alice"], .fresh []))
          [⟨some "d1", some "Alice"⟩] ⟨fun _ => [], fun _ => [], fun _ => none⟩ true).db
        true).result.rolesAdded = 0 :=
  (syncGuild_second_run_idempotent ⟨"g", some "C", some "S", [⟨"acme", "widgets"⟩]⟩
    ⟨true, true, 100, [⟨"C", 1⟩, ⟨"S", 2⟩], [("d1", [])]⟩
    (fun _ => (.fresh ["alice"], .fresh []))
    (fun _ => (.fresh ["alice"], .fresh []))
    [⟨some "d1", some "Alice"⟩] ⟨fun _ => [], fun _ => [], fun _ => none⟩
    (by decide)
    (by intro c s hc hs; injection hc with h1; injection hs with h2
        rw [← h1, ← h2]; decide)
    (by decide)).2.1

/-- C10 (counterexample): a Link header value whose single segment has no
semicolon makes `getNextPageUrl` read `trim` of an undefined destructured
component: the call raises a TypeError instead of returning, refuting the
claim that the function returns for every input value. -/
theorem getNextPageUrl_throws_on_semicolonless_segment :
    getNextPageUrl (some "foo") =
      .error "TypeError: Cannot read properties of undefined" := by decide

theorem getNextPageUrlGo_spec (links : List String)
    (hw : ∀ link ∈ links, 2 ≤ (jsSplit link ';').length) :
    getNextPageUrlGo links = .ok ((links.find? fun link =>
        jsTrim ((jsSplit link ';')[1]?.getD "") == "rel=\"next\"").map
      fun link => jsSlice1Neg1 (jsTrim ((jsSplit link ';').headD ""))) := by
  induction links with
  | nil => rfl
  | cons link rest ih =>
    have h2 : 1 < (jsSplit link ';').length := hw link (by simp)
    have hrel : (jsSplit link ';')[1]? = some ((jsSplit link ';')[1]) :=
      List.getElem?_eq_getElem h2
    by_cases hc : jsTrim ((jsSplit link ';')[1]) = "rel=\"next\""
    · simp only [getNextPageUrlGo, hrel, List.find?_cons, Option.getD_some, hc,
        if_pos rfl, beq_self_eq_true]
      rfl
    · have hbeq : (jsTrim ((jsSplit link ';')[1]) == "rel=\"next\"") = false :=
        beq_eq_false_iff_ne.mpr hc
      simp only [getNextPageUrlGo, hrel, List.find?_cons, Option.getD_some, hbeq,
        if_neg hc]
      exact ih (fun l hl => hw l (by simp [hl]))

/-- C10 (amended): `getNextPageUrl` returns without raising whenever every
comma-separated segment of the header contains a semicolon (as every
well-formed Link header segment does): null for a null header, and otherwise
exactly the spec-side extraction `specNextPageUrl` — null when no segment's
rel parameter is rel="next", and the text between the angle brackets of the
first such segment otherwise.  On a segment without a semicolon the function
instead throws a TypeError (see the counterexample). -/
theorem getNextPageUrl_spec_on_wellformed_headers (h : String)
    (hw : ∀ link ∈ jsSplit h ',', 2 ≤ (jsSplit link ';').length) :
    getNextPageUrl none = .ok none
    ∧ getNextPageUrl (some h) = .ok (specNextPageUrl h) := by
  refine ⟨rfl, ?_⟩
  by_cases hemp : h = ""
  · subst hemp
    have h1 := hw "" (by decide)
    have h2 : (jsSplit "" ';').length = 1 := by decide
    omega
  · rw [getNextPageUrl, if_neg hemp, specNextPageUrl]
    exact getNextPageUrlGo_spec (jsSplit h ',') hw

/-- C10 (witness): the amended theorem evaluated on a two-segment header
whose second segment carries rel="next". -/
theorem getNextPageUrl_spec_on_wellformed_headers_witness :
    getNextPageUrl (some "<u1>; rel=\"prev\", <u2>; rel=\"next\"") =
      .ok (specNextPageUrl "<u1>; rel=\"prev\", <u2>; rel=\"next\"")
    ∧ specNextPageUrl "<u1>; rel=\"prev\", <u2>; rel=\"next\"" = some "u2" :=
  ⟨(getNextPageUrl_spec_on_wellformed_headers "<u1>; rel=\"prev\", <u2>; rel=\"next\""
      (by decide)).2, by decide⟩

/-! ## Retry-bound lemmas for the request function -/

theorem request_attempts_le (resp : Nat → HttpResponse) :
    ∀ (n rc : Nat), maxRetries - rc ≤ n → rc ≤ maxRetries →
      (request resp rc).2 ≤ maxRetries + 1 - rc := by
  intro n
  induction n with
  | zero =>
    intro rc h0 hle
    rw [request]
    split
    · omega
    · omega
    · split
      · omega
      · omega
    · omega
    · split
      · omega
      · omega
  | succ n ihn =>
    intro rc h0 hle
    rw [request]
    split
    · omega
    · omega
    · split
      · rename_i hlt
        have := ihn (rc + 1) (by omega) (by omega)
        simp only []
        omega
      · omega
    · omega
    · split
      · rename_i hcond
        have := ihn (rc + 1) (by omega) (by omega)
        simp only []
        omega
      · omega

theorem request_exhausts (resp : Nat → HttpResponse)
    (h : ∀ i, isRetryable (resp i) = true) :
    ∀ (n rc : Nat), maxRetries - rc ≤ n → rc ≤ maxRetries →
      isError (request resp rc).1 = true ∧ (request resp rc).2 = maxRetries + 1 - rc := by
  intro n
  induction n with
  | zero =>
    intro rc h0 hle
    have hr := h rc
    cases hresp : resp rc with
    | ok body => rw [hresp] at hr; simp [isRetryable] at hr
    | notModified => rw [hresp] at hr; simp [isRetryable] at hr
    | httpError status => rw [hresp] at hr; simp [isRetryable] at hr
    | rateLimited z ra =>
      have hreq : request resp rc =
          (if _h : rc < maxRetries then
            ((request resp (rc + 1)).1, (request resp (rc + 1)).2 + 1)
          else (.error "GitHub API error: 403", 1)) := by
        rw [request, hresp]
      rw [hreq]
      split
      · omega
      · exact ⟨rfl, by omega⟩
    | networkError te =>
      have hreq : request resp rc =
          (if _h : te = true ∧ rc < maxRetries then
            ((request resp (rc + 1)).1, (request resp (rc + 1)).2 + 1)
          else (.error "network error", 1)) := by
        rw [request, hresp]
      rw [hreq]
      split
      · rename_i hcond
        exact absurd hcond.2 (by omega)
      · exact ⟨rfl, by omega⟩
  | succ n ihn =>
    intro rc h0 hle
    have hr := h rc
    cases hresp : resp rc with
    | ok body => rw [hresp] at hr; simp [isRetryable] at hr
    | notModified => rw [hresp] at hr; simp [isRetryable] at hr
    | httpError status => rw [hresp] at hr; simp [isRetryable] at hr
    | rateLimited z ra =>
      have hreq : request resp rc =
          (if _h : rc < maxRetries then
            ((request resp (rc + 1)).1, (request resp (rc + 1)).2 + 1)
          else (.error "GitHub API error: 403", 1)) := by
        rw [request, hresp]
      rw [hreq]
      split
      · rename_i hlt
        obtain ⟨ih1, ih2⟩ := ihn (rc + 1) (by omega) (by omega)
        exact ⟨ih1, by omega⟩
      · exact ⟨rfl, by omega⟩
    | networkError te =>
      have hte : te = true := by
        rw [hresp] at hr
        simpa [isRetryable] using hr
      have hreq : request resp rc =
          (if _h : te = true ∧ rc < maxRetries then
            ((request resp (rc + 1)).1, (request resp (rc + 1)).2 + 1)
          else (.error "network error", 1)) := by
        rw [request, hresp]
      rw [hreq]
      split
      · rename_i hcond
        obtain ⟨ih1, ih2⟩ := ihn (rc + 1) (by omega) (by omega)
        exact ⟨ih1, by omega⟩
      · rename_i hcond
        have hge : ¬ rc < maxRetries := fun hlt => hcond ⟨hte, hlt⟩
        exact ⟨rfl, by omega⟩

/-- C7: the retry control flow of `request` is bounded by `maxRetries = 3`:
from retry counter `rc` at most `maxRetries + 1 - rc` fetch attempts are ever
performed (each retry passes a strictly larger counter, so the recursion
terminates), and when every attempt keeps hitting a retryable condition
(403/429 rate limits or thrown TypeErrors) the call performs exactly
`maxRetries + 1 = 4` attempts and then surfaces an error to the caller
instead of retrying further. -/
theorem request_retries_bounded (resp : Nat → HttpResponse)
    (h : ∀ i, isRetryable (resp i) = true) :
    maxRetries = 3
    ∧ (∀ (resp2 : Nat → HttpResponse) (rc : Nat), rc ≤ maxRetries →
        (request resp2 rc).2 ≤ maxRetries + 1 - rc)
    ∧ (request resp 0).2 = maxRetries + 1
    ∧ isError (request resp 0).1 = true := by
  refine ⟨rfl, ?_, ?_, ?_⟩
  · intro resp2 rc hle
    exact request_attempts_le resp2 (maxRetries - rc) rc (le_refl _) hle
  · have := request_exhausts resp h maxRetries 0 (by omega) (by omega)
    omega
  · exact (request_exhausts resp h maxRetries 0 (by omega) (by omega)).1

/-- C7 (witness): a stream of nothing but 403 rate-limit responses exhausts
the retry budget after 4 attempts and surfaces an error. -/
theorem request_retries_bounded_witness :
    (request (fun _ => .rateLimited true none) 0).2 = maxRetries + 1
    ∧ isError (request (fun _ => .rateLimited true none) 0).1 = true :=
  ⟨(request_retries_bounded (fun _ => .rateLimited true none) (fun _ => rfl)).2.2.1,
    (request_retries_bounded (fun _ => .rateLimited true none) (fun _ => rfl)).2.2.2⟩

/-! ## Pagination lemmas -/

/-- A well-linked page chain: every page except the last carries a Link
header that `getNextPageUrl` resolves to a next URL, and the last page's
header resolves to null. -/
def linkedPages : List Page → Prop
  | [] => True
  | p :: rest =>
    (match rest with
     | [] => getNextPageUrl p.linkHeader = .ok none
     | _ :: _ => ∃ v, getNextPageUrl p.linkHeader = .ok (some v)) ∧ linkedPages rest

theorem starPagesLoop_spec :
    ∀ (pages : List Page) (acc : List String) (u : String),
      pages ≠ [] →
      (∀ p ∈ pages, p.okStatus = true) →
      (∀ p ∈ pages, p.logins ≠ []) →
      linkedPages pages →
      starPagesLoop acc (some u) pages =
        .ok (acc ++ (pages.map (fun p => p.logins.map jsToLower)).join) := by
  intro pages
  induction pages with
  | nil => intro acc u hne; exact absurd rfl hne
  | cons p rest ih =>
    intro acc u _ hok hne hlink
    have hok1 : (!p.okStatus) = false := by rw [hok p (by simp)]; rfl
    have hne1 : p.logins.isEmpty = false := by
      cases hl : p.logins with
      | nil => exact absurd hl (hne p (by simp))
      | cons a as => rfl
    cases rest with
    | nil =>
      have hlast : getNextPageUrl p.linkHeader = .ok none := hlink.1
      simp [starPagesLoop, hok1, hne1, hlast]
    | cons q rest2 =>
      obtain ⟨v, hv⟩ : ∃ v, getNextPageUrl p.linkHeader = .ok (some v) := hlink.1
      rw [starPagesLoop]
      simp only [hok1, Bool.false_eq_true, if_false, hne1, hv]
      rw [ih (acc ++ p.logins.map jsToLower) v (by simp)
        (fun x hx => hok x (by simp [hx])) (fun x hx => hne x (by simp [hx])) hlink.2]
      simp [List.append_assoc]

/-- C6 (counterexample): a stargazer list spanning 3 pages where a login
recurs across pages (here in a different letter case): the client follows
the chain and lowercases, but returns the plain concatenation — the
duplicate survives, so the result is not the deduplicated union the claim
asserts.  The contributors call on the same page chain returns only the
first page: no next link is ever followed. -/
theorem getRepositoryStargazers_no_dedup_and_contributors_single_page :
    getRepositoryStargazers
      [⟨true, ["Alice"], some "<u2>; rel=\"next\""⟩,
        ⟨true, ["Bob"], some "<u3>; rel=\"next\""⟩,
        ⟨true, ["alice"], none⟩] = .ok ["alice", "bob", "alice"]
    ∧ ¬ (["alice", "bob", "alice"] : List String).Nodup
    ∧ getRepositoryContributors
      [⟨true, ["Alice"], some "<u2>; rel=\"next\""⟩,
        ⟨true, ["Bob"], some "<u3>; rel=\"next\""⟩,
        ⟨true, ["alice"], none⟩] = .ok ["alice"] := by
  refine ⟨by decide, by decide, by decide⟩

/-- C6 (amended): over a well-linked chain of 2xx pages (each page after the
first non-empty), `getRepositoryStargazers` follows the rel="next" links
until exhausted and returns the lowercased concatenation of all pages'
logins — duplicates across pages are preserved, no deduplication step exists
— while `getRepositoryContributors` issues a single request and returns only
the first page's logins, lowercased, ignoring any next links. -/
theorem github_pagination_concatenates (p : Page) (rest : List Page)
    (hok : ∀ q ∈ p :: rest, q.okStatus = true)
    (hne : ∀ q ∈ rest, q.logins ≠ [])
    (hlink : linkedPages (p :: rest)) :
    getRepositoryStargazers (p :: rest) =
      .ok (((p :: rest).map (fun q => q.logins.map jsToLower)).join)
    ∧ getRepositoryContributors (p :: rest) = .ok (p.logins.map jsToLower) := by
  have hok1 : (!p.okStatus) = false := by rw [hok p (by simp)]; rfl
  constructor
  · cases rest with
    | nil =>
      have hlast : getNextPageUrl p.linkHeader = .ok none := hlink.1
      simp [getRepositoryStargazers, hok1, hlast, starPagesLoop]
    | cons q rest2 =>
      obtain ⟨v, hv⟩ : ∃ v, getNextPageUrl p.linkHeader = .ok (some v) := hlink.1
      simp only [getRepositoryStargazers, hok1, Bool.false_eq_true, if_false, hv]
      rw [starPagesLoop_spec (q :: rest2) (p.logins.map jsToLower) v (by simp)
        (fun x hx => hok x (by simp [hx])) hne hlink.2]
      simp
  · simp [getRepositoryContributors, hok1]

/-- C6 (witness): the amended theorem on a concrete 3-page chain. -/
theorem github_pagination_concatenates_witness :
    getRepositoryStargazers
      [⟨true, ["Alice"], some "<u2>; rel=\"next\""⟩,
        ⟨true, ["Bob"], some "<u3>; rel=\"next\""⟩,
        ⟨true, ["Carol"], none⟩] =
      .ok ((([⟨true, ["Alice"], some "<u2>; rel=\"next\""⟩,
        ⟨true, ["Bob"], some "<u3>; rel=\"next\""⟩,
        (⟨true, ["Carol"], none⟩ : Page)]).map (fun q => q.logins.map jsToLower)).join) :=
  (github_pagination_concatenates ⟨true, ["Alice"], some "<u2>; rel=\"next\""⟩
    [⟨true, ["Bob"], some "<u3>; rel=\"next\""⟩, ⟨true, ["Carol"], none⟩]
    (by intro q hq; fin_cases hq <;> rfl)
    (by intro q hq; fin_cases hq <;> decide)
    (by refine ⟨⟨"u2", by decide⟩, ⟨"u3", by decide⟩, by decide, trivial⟩)).1

theorem listAny_congr {α : Type} : ∀ (l : List α) (p q : α → Bool),
    (∀ x ∈ l, p x = q x) → l.any p = l.any q := by
  intro l
  induction l with
  | nil => intro p q _; rfl
  | cons a rest ih =>
    intro p q h
    simp only [List.any_cons]
    rw [h a (by simp), ih p q (fun x hx => h x (by simp [hx]))]

theorem fetchPhase_map_isSome_at (cfg : GuildConfig)
    (outs : FollowedRepository → FetchOutcome × FetchOutcome) :
    ∀ (repos : List FollowedRepository) (db : DbState) (m : List (String × RepoData))
      (r : FollowedRepository), r ∈ repos →
      (repos.map FollowedRepository.fullName).Nodup →
      (∀ cC sC, (syncRepoData cfg (outs r).1 (outs r).2 cC sC).isSome = true) →
      (mapGet (fetchPhase cfg outs repos db m).2 r.fullName).isSome = true := by
  intro repos
  induction repos with
  | nil => intro db m r h; simp at h
  | cons r0 rest ih =>
    intro db m r hmem hnd hd
    rcases List.mem_cons.mp hmem with heq | htail
    · subst heq
      have hrest : ∀ r' ∈ rest, r'.fullName ≠ r.fullName := by
        intro r' h' hcontra
        have := (List.nodup_cons.mp hnd).1
        exact this (hcontra ▸ List.mem_map_of_mem FollowedRepository.fullName h')
      simp only [fetchPhase]
      rw [fetchPhase_map_other cfg outs rest _ _ r.fullName hrest]
      obtain ⟨x, hx⟩ := Option.isSome_iff_exists.mp
        (hd (db.contribCache r.fullName) (db.starCache r.fullName))
      rw [syncRepo_snd, hx]
      simp [mapGet_mapSet]
    · simp only [fetchPhase]
      exact ih _ _ r htail (List.nodup_cons.mp hnd).2 hd

/-- C2: failures are isolated.  (1) A repository whose contributor fetch
throws gets no `repoDataMap` entry and its `RepositorySyncState` records the
thrown message; (2) the same for a repository whose stargazer fetch throws
(the stargazer fetch only runs when the contributor fetch of the same step
did not throw, hence that proviso); (3) a repository whose fetches both
return fresh data still gets its full entry in the same pass; (4) more
generally, every repository none of whose performed fetches throws keeps an
entry in the map, whatever the other repositories did; (5) a missing map
entry is equivalent to an empty membership entry for every role decision —
the failed repository's data is treated as empty; (6) `syncAllGuilds`
records each guild's own outcome: every guild in the list is attempted,
whatever the outcomes of the guilds around it. -/
theorem syncGuild_partial_failure_isolated (cfg : GuildConfig)
    (outs : FollowedRepository → FetchOutcome × FetchOutcome) (db : DbState)
    (hnd : (cfg.repositories.map FollowedRepository.fullName).Nodup) :
    (∀ r ∈ cfg.repositories, ∀ msg,
      cfg.contributorRoleId.isSome = true → (outs r).1 = .throws msg →
        mapGet (fetchPhase cfg outs cfg.repositories db []).2 r.fullName = none
        ∧ (fetchPhase cfg outs cfg.repositories db []).1.lastSyncError r.fullName = some msg)
    ∧ (∀ r ∈ cfg.repositories, ∀ msg,
      cfg.stargazerRoleId.isSome = true → (outs r).2 = .throws msg →
      (cfg.contributorRoleId.isSome = true → ∀ m2, (outs r).1 ≠ .throws m2) →
        mapGet (fetchPhase cfg outs cfg.repositories db []).2 r.fullName = none
        ∧ (fetchPhase cfg outs cfg.repositories db []).1.lastSyncError r.fullName = some msg)
    ∧ (∀ r ∈ cfg.repositories, ∀ lc ls, outs r = (.fresh lc, .fresh ls) →
        mapGet (fetchPhase cfg outs cfg.repositories db []).2 r.fullName =
          some ⟨if cfg.contributorRoleId.isSome then lc else [],
                if cfg.stargazerRoleId.isSome then ls else []⟩)
    ∧ (∀ r ∈ cfg.repositories,
      (cfg.contributorRoleId.isSome = true → ∀ m2, (outs r).1 ≠ .throws m2) →
      (cfg.stargazerRoleId.isSome = true → ∀ m2, (outs r).2 ≠ .throws m2) →
        (mapGet (fetchPhase cfg outs cfg.repositories db []).2 r.fullName).isSome = true)
    ∧ (∀ (m : List (String × RepoData)) (k : String) (u : String), mapGet m k = none →
        isContributorFor cfg (mapSet m k ⟨[], []⟩) u = isContributorFor cfg m u
        ∧ isStargazerFor cfg (mapSet m k ⟨[], []⟩) u = isStargazerFor cfg m u)
    ∧ (∀ (sync : GuildConfig → Except String Unit) (guilds : List GuildConfig),
        ∀ g ∈ guilds, (g, sync g) ∈ syncAllGuilds sync guilds) := by
  refine ⟨?_, ?_, ?_, ?_, ?_, ?_⟩
  · intro r hr msg hcs hthrows
    have hd : ∀ cC sC, syncRepoData cfg (outs r).1 (outs r).2 cC sC = none := by
      intro cC sC
      simp [syncRepoData, kindData, hcs, hthrows]
    constructor
    · rw [fetchPhase_map_at cfg outs cfg.repositories db [] r none hr hnd hd]
      rfl
    · rw [fetchPhase_lastSyncError_at cfg outs cfg.repositories db [] r hr hnd]
      rw [hthrows]
      simp [errWrite, hcs]
  · intro r hr msg hss hthrows hnoc
    have hd : ∀ cC sC, syncRepoData cfg (outs r).1 (outs r).2 cC sC = none := by
      intro cC sC
      cases hc : cfg.contributorRoleId.isSome
      · simp [syncRepoData, kindData, hc, hss, hthrows]
      · cases hc1 : (outs r).1 with
        | throws m2 => exact absurd hc1 (hnoc hc m2)
        | notModified => simp [syncRepoData, kindData, hc, hc1, hss, hthrows]
        | fresh l => simp [syncRepoData, kindData, hc, hc1, hss, hthrows]
    constructor
    · rw [fetchPhase_map_at cfg outs cfg.repositories db [] r none hr hnd hd]
      rfl
    · rw [fetchPhase_lastSyncError_at cfg outs cfg.repositories db [] r hr hnd]
      cases hc : cfg.contributorRoleId.isSome
      · rw [hthrows]
        simp [errWrite, hc, hss]
      · cases hc1 : (outs r).1 with
        | throws m2 => exact absurd hc1 (hnoc hc m2)
        | notModified => rw [hthrows]; simp [errWrite, hc, hss]
        | fresh l => rw [hthrows]; simp [errWrite, hc, hss]
  · intro r hr lc ls hfresh
    have h1 : (outs r).1 = .fresh lc := by rw [hfresh]
    have h2 : (outs r).2 = .fresh ls := by rw [hfresh]
    have hd : ∀ cC sC, syncRepoData cfg (outs r).1 (outs r).2 cC sC =
        some ⟨if cfg.contributorRoleId.isSome then lc else [],
              if cfg.stargazerRoleId.isSome then ls else []⟩ := by
      intro cC sC
      cases hc : cfg.contributorRoleId.isSome <;> cases hs : cfg.stargazerRoleId.isSome <;>
        simp [syncRepoData, kindData, hc, hs, h1, h2]
    rw [fetchPhase_map_at cfg outs cfg.repositories db [] r _ hr hnd hd]
  · intro r hr hnoc hnos
    apply fetchPhase_map_isSome_at cfg outs cfg.repositories db [] r hr hnd
    intro cC sC
    have hkc : (kindData cfg.contributorRoleId.isSome (outs r).1 cC).isSome = true := by
      cases hc : cfg.contributorRoleId.isSome
      · simp [kindData]
      · cases hc1 : (outs r).1 with
        | throws m2 => exact absurd hc1 (hnoc hc m2)
        | notModified => simp [kindData]
        | fresh l => simp [kindData]
    have hks : (kindData cfg.stargazerRoleId.isSome (outs r).2 sC).isSome = true := by
      cases hs : cfg.stargazerRoleId.isSome
      · simp [kindData]
      · cases hs1 : (outs r).2 with
        | throws m2 => exact absurd hs1 (hnos hs m2)
        | notModified => simp [kindData]
        | fresh l => simp [kindData]
    obtain ⟨cs, hcs⟩ := Option.isSome_iff_exists.mp hkc
    obtain ⟨ss, hss⟩ := Option.isSome_iff_exists.mp hks
    simp [syncRepoData, hcs, hss]
  · intro m k u hnone
    constructor
    · unfold isContributorFor
      apply listAny_congr
      intro repo _
      rw [mapGet_mapSet]
      by_cases hk : repo.fullName = k
      · rw [if_pos hk, hk, hnone]
        simp
      · rw [if_neg hk]
    · unfold isStargazerFor
      apply listAny_congr
      intro repo _
      rw [mapGet_mapSet]
      by_cases hk : repo.fullName = k
      · rw [if_pos hk, hk, hnone]
        simp
      · rw [if_neg hk]
  · intro sync guilds
    induction guilds with
    | nil => intro g hg; simp at hg
    | cons g0 rest ih =>
      intro g hg
      rcases List.mem_cons.mp hg with heq | htail
      · subst heq
        simp [syncAllGuilds]
      · simp only [syncAllGuilds, List.mem_cons]
        exact Or.inr (ih g htail)

/-- C2 (witness): in a contributor-only guild, repository A's throwing
contributor fetch leaves no map entry and records the error while fresh
repository B keeps its full entry; in a stargazer-only guild, the same holds
when A's stargazer fetch throws; and a guild after a failing guild still
gets its own outcome recorded by syncAllGuilds. -/
theorem syncGuild_partial_failure_isolated_witness :
    mapGet (fetchPhase ⟨"g", some "C", none, [⟨"acme", "a"⟩, ⟨"acme", "b"⟩]⟩
        (fun r => if r.name = "a" then (.throws "boom", .fresh []) else (.fresh ["x"], .fresh []))
        [⟨"acme", "a"⟩, ⟨"acme", "b"⟩] ⟨fun _ => [], fun _ => [], fun _ => none⟩ []).2
      "acme/a" = none
    ∧ (fetchPhase ⟨"g", some "C", none, [⟨"acme", "a"⟩, ⟨"acme", "b"⟩]⟩
        (fun r => if r.name = "a" then (.throws "boom", .fresh []) else (.fresh ["x"], .fresh []))
        [⟨"acme", "a"⟩, ⟨"acme", "b"⟩] ⟨fun _ => [], fun _ => [], fun _ => none⟩
        []).1.lastSyncError "acme/a" = some "boom"
    ∧ mapGet (fetchPhase ⟨"g", some "C", none, [⟨"acme", "a"⟩, ⟨"acme", "b"⟩]⟩
        (fun r => if r.name = "a" then (.throws "boom", .fresh []) else (.fresh ["x"], .fresh []))
        [⟨"acme", "a"⟩, ⟨"acme", "b"⟩] ⟨fun _ => [], fun _ => [], fun _ => none⟩ []).2
      "acme/b" = some ⟨["x"], []⟩
    ∧ mapGet (fetchPhase ⟨"g2", none, some "S", [⟨"acme", "a"⟩, ⟨"acme", "b"⟩]⟩
        (fun r => if r.name = "a" then (.fresh [], .throws "starboom")
          else (.fresh [], .fresh ["y"]))
        [⟨"acme", "a"⟩, ⟨"acme", "b"⟩] ⟨fun _ => [], fun _ => [], fun _ => none⟩ []).2
      "acme/a" = none
    ∧ (fetchPhase ⟨"g2", none, some "S", [⟨"acme", "a"⟩, ⟨"acme", "b"⟩]⟩
        (fun r => if r.name = "a" then (.fresh [], .throws "starboom")
          else (.fresh [], .fresh ["y"]))
        [⟨"acme", "a"⟩, ⟨"acme", "b"⟩] ⟨fun _ => [], fun _ => [], fun _ => none⟩
        []).1.lastSyncError "acme/a" = some "starboom"
    ∧ mapGet (fetchPhase ⟨"g2", none, some "S", [⟨"acme", "a"⟩, ⟨"acme", "b"⟩]⟩
        (fun r => if r.name = "a" then (.fresh [], .throws "starboom")
          else (.fresh [], .fresh ["y"]))
        [⟨"acme", "a"⟩, ⟨"acme", "b"⟩] ⟨fun _ => [], fun _ => [], fun _ => none⟩ []).2
      "acme/b" = some ⟨[], ["y"]⟩
    ∧ ((⟨"g2", none, none, []⟩,
        Except.error "guild sync failed") : GuildConfig × Except String Unit) ∈
      syncAllGuilds (fun g => if g.guildId = "g1" then .error "guild one failed"
        else .error "guild sync failed") [⟨"g1", none, none, []⟩, ⟨"g2", none, none, []⟩] := by
  have h := syncGuild_partial_failure_isolated ⟨"g", some "C", none, [⟨"acme", "a"⟩, ⟨"acme", "b"⟩]⟩
    (fun r => if r.name = "a" then (.throws "boom", .fresh []) else (.fresh ["x"], .fresh []))
    ⟨fun _ => [], fun _ => [], fun _ => none⟩ (by decide)
  have h2 := syncGuild_partial_failure_isolated ⟨"g2", none, some "S", [⟨"acme", "a"⟩, ⟨"acme", "b"⟩]⟩
    (fun r => if r.name = "a" then (.fresh [], .throws "starboom")
      else (.fresh [], .fresh ["y"]))
    ⟨fun _ => [], fun _ => [], fun _ => none⟩ (by decide)
  refine ⟨?_, ?_, ?_, ?_, ?_, ?_, ?_⟩
  · exact (h.1 ⟨"acme", "a"⟩ (by decide) "boom" rfl (by decide)).1
  · exact (h.1 ⟨"acme", "a"⟩ (by decide) "boom" rfl (by decide)).2
  · have hb := h.2.2.1 ⟨"acme", "b"⟩ (by decide) ["x"] [] (by decide)
    simpa using hb
  · exact (h2.2.1 ⟨"acme", "a"⟩ (by decide) "starboom" rfl (by decide)
      (by intro hcontra; exact absurd hcontra (by decide))).1
  · exact (h2.2.1 ⟨"acme", "a"⟩ (by decide) "starboom" rfl (by decide)
      (by intro hcontra; exact absurd hcontra (by decide))).2
  · have hb := h2.2.2.1 ⟨"acme", "b"⟩ (by decide) [] ["y"] (by decide)
    simpa using hb
  · exact h.2.2.2.2.2 (fun g => if g.guildId = "g1" then .error "guild one failed"
      else .error "guild sync failed") [⟨"g1", none, none, []⟩, ⟨"g2", none, none, []⟩]
      ⟨"g2", none, none, []⟩ (by decide)

/-- C4: the role decision is exactly set membership of the lowercased login
across the followed repositories' gathered data, for both role kinds; and
when the login appears in no repository's set, the processing revokes the
role when held and leaves the member untouched otherwise (and grants it when
desired but absent). -/
theorem role_decision_set_membership (cfg : GuildConfig) (m : List (String × RepoData))
    (guildRoles : List Role) (memberRoles : List String) (gh : String) :
    (isContributorFor cfg m (jsToLower gh) = true ↔
      ∃ repo ∈ cfg.repositories, ∃ d, mapGet m repo.fullName = some d
        ∧ jsToLower gh ∈ d.contributors)
    ∧ (isStargazerFor cfg m (jsToLower gh) = true ↔
      ∃ repo ∈ cfg.repositories, ∃ d, mapGet m repo.fullName = some d
        ∧ jsToLower gh ∈ d.stargazers)
    ∧ (∀ rid role, cfg.contributorRoleId = some rid →
        findRole guildRoles rid = some role →
        processContributorRole gh cfg m guildRoles memberRoles true =
          (if isContributorFor cfg m (jsToLower gh) then
            (if memberRoles.contains role.id then ⟨0, 0, 0, memberRoles⟩
             else ⟨1, 0, 1, role.id :: memberRoles⟩)
           else
            (if memberRoles.contains role.id then
              ⟨0, 1, 1, memberRoles.filter (fun x => x != role.id)⟩
             else ⟨0, 0, 0, memberRoles⟩)))
    ∧ (∀ rid role, cfg.stargazerRoleId = some rid →
        findRole guildRoles rid = some role →
        processStargazerRole gh cfg m guildRoles memberRoles true =
          (if isStargazerFor cfg m (jsToLower gh) then
            (if memberRoles.contains role.id then ⟨0, 0, 0, memberRoles⟩
             else ⟨1, 0, 1, role.id :: memberRoles⟩)
           else
            (if memberRoles.contains role.id then
              ⟨0, 1, 1, memberRoles.filter (fun x => x != role.id)⟩
             else ⟨0, 0, 0, memberRoles⟩))) := by
  refine ⟨?_, ?_, ?_, ?_⟩
  · unfold isContributorFor
    rw [List.any_eq_true]
    constructor
    · rintro ⟨repo, hrepo, hp⟩
      cases hmg : mapGet m repo.fullName with
      | none => rw [hmg] at hp; cases hp
      | some d =>
        rw [hmg] at hp
        exact ⟨repo, hrepo, d, hmg, List.elem_iff.mp hp⟩
    · rintro ⟨repo, hrepo, d, hmg, hmem⟩
      exact ⟨repo, hrepo, by rw [hmg]; exact List.elem_iff.mpr hmem⟩
  · unfold isStargazerFor
    rw [List.any_eq_true]
    constructor
    · rintro ⟨repo, hrepo, hp⟩
      cases hmg : mapGet m repo.fullName with
      | none => rw [hmg] at hp; cases hp
      | some d =>
        rw [hmg] at hp
        exact ⟨repo, hrepo, d, hmg, List.elem_iff.mp hp⟩
    · rintro ⟨repo, hrepo, d, hmg, hmem⟩
      exact ⟨repo, hrepo, by rw [hmg]; exact List.elem_iff.mpr hmem⟩
  · intro rid role hc hfind
    simp only [processContributorRole, hc, hfind]
    by_cases hd : isContributorFor cfg m (jsToLower gh) <;>
      by_cases hh : memberRoles.contains role.id = true <;>
        simp_all
  · intro rid role hs hfind
    simp only [processStargazerRole, hs, hfind]
    by_cases hd : isStargazerFor cfg m (jsToLower gh) <;>
      by_cases hh : memberRoles.contains role.id = true <;>
        simp_all

/-- C4 (witness): the mixed-case login "Alice" is granted the contributor
role through membership of "alice" in one followed repository's contributor
set; with an empty set the held role is revoked. -/
theorem role_decision_set_membership_witness :
    processContributorRole "Alice" ⟨"g", some "C", none, [⟨"acme", "widgets"⟩]⟩
      [("acme/widgets", ⟨["alice"], []⟩)] [⟨"C", 1⟩] [] true =
      (if isContributorFor ⟨"g", some "C", none, [⟨"acme", "widgets"⟩]⟩
          [("acme/widgets", ⟨["alice"], []⟩)] (jsToLower "Alice") then
        (if ([] : List String).contains (Role.mk "C" 1).id then ⟨0, 0, 0, []⟩
         else ⟨1, 0, 1, [(Role.mk "C" 1).id]⟩)
       else
        (if ([] : List String).contains (Role.mk "C" 1).id then
          ⟨0, 1, 1, ([] : List String).filter (fun x => x != (Role.mk "C" 1).id)⟩
         else ⟨0, 0, 0, []⟩))
    ∧ processContributorRole "Alice" ⟨"g", some "C", none, [⟨"acme", "widgets"⟩]⟩
        [("acme/widgets", ⟨["alice"], []⟩)] [⟨"C", 1⟩] [] true = ⟨1, 0, 1, ["C"]⟩
    ∧ processContributorRole "Alice" ⟨"g", some "C", none, [⟨"acme", "widgets"⟩]⟩
        [("acme/widgets", ⟨[], []⟩)] [⟨"C", 1⟩] ["C"] true = ⟨0, 1, 1, []⟩ := by
  refine ⟨?_, by decide, by decide⟩
  have h := (role_decision_set_membership ⟨"g", some "C", none, [⟨"acme", "widgets"⟩]⟩
    [("acme/widgets", ⟨["alice"], []⟩)] [⟨"C", 1⟩] [] "Alice").2.2.1 "C" ⟨"C", 1⟩ rfl
    (by decide)
  simpa using h
